import Mathlib

/-!
kube-http-proxy: the forwarding handler of `main.go`

A shallow embedding of `hopHeaders`, `copyHeader`, `delHopHeaders` and
`proxy.ServeHTTP`, together with the standard-library operations they call
(`strings.HasSuffix`, `strings.Split`, `url.URL.Hostname`, `url.URL.Port`,
`http.Header.Add/Set/Del/Get`, `http.CanonicalHeaderKey`, `http.Error`, the
`WriteHeader` and `Write` of the server's response writer, `io.Copy`, and the
redirect loop of `http.Client.Do`).

Go strings are modelled by Lean strings.  Every string operation used by the
handler (suffix test, split at ".", search for ":", concatenation, ASCII case
mapping) acts in the same way on UTF-8 bytes and on code points.

A Go `map[string][]string` is modelled by the list of its entries, in the order
in which a `range` loop visits them.  A list stands for a map when its keys are
pairwise distinct; the functions below do not require it.

The network is taken as it answers: a response body is read to its end, and
the connection to the caller takes every byte the response writer accepts.
-/

namespace KubeHttpProxy

/-! ## `strings` -/

/-- Go `strings.HasSuffix`. -/
def HasSuffix (s suffix : String) : Bool :=
  suffix.data.isSuffixOf s.data

/-- The pieces of a character sequence between the occurrences of `sep`. -/
def splitChars (sep : Char) : List Char → List (List Char)
  | [] => [[]]
  | c :: cs =>
    if c = sep then [] :: splitChars sep cs
    else
      match splitChars sep cs with
      | [] => [[c]]
      | p :: ps => (c :: p) :: ps

/-- Go `strings.Split` for a separator that is a single character. -/
def Split (s : String) (sep : Char) : List String :=
  (splitChars sep s.data).map String.mk

/-- Index of the last occurrence of `c`, as Go `strings.LastIndexByte` (`none` for -1). -/
def LastIndexByte : List Char → Char → Option Nat
  | [], _ => none
  | x :: xs, c =>
    match LastIndexByte xs c with
    | some i => some (i + 1)
    | none => if x = c then some 0 else none

/-! ## `net/url` -/

/-- Go `url.URL`, with the fields a request target carries. -/
structure URL where
  Scheme : String
  Opaque : String
  Host : String
  Path : String
  RawPath : String
  RawQuery : String
  Fragment : String
  deriving DecidableEq, Repr

/-- Go `url.validOptionalPort`: the empty string, or ":" followed by digits only. -/
def validOptionalPort (port : List Char) : Bool :=
  match port with
  | [] => true
  | c :: rest => c == ':' && rest.all (fun b => !(b < '0' || b > '9'))

/-- Go `url.splitHostPort`: separates a trailing ":port" and strips the
square brackets of an IPv6 literal. -/
def splitHostPort (hostPort : String) : String × String :=
  let hp := hostPort.data
  let split : List Char × List Char :=
    match LastIndexByte hp ':' with
    | some colon =>
      if validOptionalPort (hp.drop colon) then (hp.take colon, hp.drop (colon + 1))
      else (hp, [])
    | none => (hp, [])
  let host := split.1
  let host :=
    if host.head? = some '[' ∧ host.getLast? = some ']' then (host.drop 1).dropLast
    else host
  (String.mk host, String.mk split.2)

/-- Go `(*URL).Hostname`. -/
def URL.Hostname (u : URL) : String := (splitHostPort u.Host).1

/-- Go `(*URL).Port`. -/
def URL.Port (u : URL) : String := (splitHostPort u.Host).2

/-! ## `net/textproto` and `net/http` headers -/

/-- Go `textproto.validHeaderFieldByte`: the token characters of RFC 7230. -/
def validHeaderFieldByte (c : Char) : Bool :=
  c.isAlphanum || "!#$%&'*+-.^_`|~".data.contains c

/-- One step of the rewriting loop of Go `textproto.canonicalMIMEHeaderKey`:
a lower-case letter becomes upper case where an upper-case letter is due, an
upper-case letter becomes lower case elsewhere. -/
def canonStep (upper : Bool) (c : Char) : Char :=
  if upper && c.isLower then c.toUpper
  else if !upper && c.isUpper then c.toLower
  else c

/-- The rewriting loop of Go `textproto.canonicalMIMEHeaderKey`: upper case is
due for the first character and after each dash. -/
def canonLoop : Bool → List Char → List Char
  | _, [] => []
  | upper, c :: cs => canonStep upper c :: canonLoop (canonStep upper c == '-') cs

/-- Go `textproto.CanonicalMIMEHeaderKey` (which `http.CanonicalHeaderKey`
calls): a key holding a character that is not a token character is returned
unchanged. -/
def CanonicalMIMEHeaderKey (s : String) : String :=
  if s.data.all validHeaderFieldByte then String.mk (canonLoop true s.data) else s

/-- Go `http.Header`, a `map[string][]string`, as the list of its entries. -/
abbrev Header := List (String × List String)

/-- The keys of a header collection. -/
def Header.keys (h : Header) : List String := h.map Prod.fst

/-- Go map lookup `h[key]` with its presence flag. -/
def Header.lookup (h : Header) (key : String) : Option (List String) :=
  (h.find? (fun e => e.1 == key)).map Prod.snd

/-- Go `Header.Del`: `delete(h, CanonicalMIMEHeaderKey(key))`. -/
def Header.Del (h : Header) (key : String) : Header :=
  h.filter (fun e => !(e.1 == CanonicalMIMEHeaderKey key))

/-- Go `Header.Add`: `h[k] = append(h[k], value)` for the canonical key `k`. -/
def Header.Add (h : Header) (key value : String) : Header :=
  let k := CanonicalMIMEHeaderKey key
  if h.any (fun e => e.1 == k) then
    h.map (fun e => if e.1 == k then (e.1, e.2 ++ [value]) else e)
  else h ++ [(k, [value])]

/-- Go `Header.Set`: `h[k] = []string{value}` for the canonical key `k`. -/
def Header.Set (h : Header) (key value : String) : Header :=
  let k := CanonicalMIMEHeaderKey key
  if h.any (fun e => e.1 == k) then
    h.map (fun e => if e.1 == k then (e.1, [value]) else e)
  else h ++ [(k, [value])]

/-- The `hopHeaders` of `main.go`. -/
def hopHeaders : List String :=
  [ "Connection",
    "Keep-Alive",
    "Proxy-Authenticate",
    "Proxy-Authorization",
    "Proxy-Connection",
    "Te",
    "Trailers",
    "Transfer-Encoding",
    "Upgrade" ]

/-- The `copyHeader` of `main.go`: every value of every entry of `src`, in
order, is added to `dst`. -/
def copyHeader (dst src : Header) : Header :=
  src.foldl (fun d e => e.2.foldl (fun d v => Header.Add d e.1 v) d) dst

/-- The `delHopHeaders` of `main.go`. -/
def delHopHeaders (header : Header) : Header :=
  hopHeaders.foldl (fun hd h => Header.Del hd h) header

/-! ## Requests and responses -/

/-- Go `http.Request`, with the fields the handler and the client read or
write.  For a request read by the server `Body` is `http.NoBody` exactly when
`ContentLength` is 0. -/
structure Request where
  Method : String
  URL : URL
  Header : Header
  Body : List UInt8
  ContentLength : Int
  RequestURI : String
  RemoteAddr : String
  deriving DecidableEq, Repr

/-- Go `http.Response`, as returned by the backend client. -/
structure Response where
  Status : String
  StatusCode : Int
  Header : Header
  Body : List UInt8
  deriving DecidableEq, Repr

/-- Go `Header.Get`: the first value stored under the canonical form of `key`,
or the empty string. -/
def Header.Get (h : Header) (key : String) : String :=
  match h.lookup (CanonicalMIMEHeaderKey key) with
  | some (v :: _) => v
  | _ => ""

/-! ## `strconv` -/

/-- The number written by a sequence of decimal digits. -/
def digitsValue (ds : List Char) : Nat :=
  ds.foldl (fun n c => 10 * n + (c.toNat - 48)) 0

/-- Go `strconv.ParseInt(s, 10, 64)`, `none` for an error: an optional sign,
then one or more decimal digits, the value within 64 bits. -/
def ParseInt (s : String) : Option Int :=
  let sd : Bool × List Char :=
    match s.data with
    | '+' :: ds => (false, ds)
    | '-' :: ds => (true, ds)
    | ds => (false, ds)
  if sd.2.isEmpty || !sd.2.all Char.isDigit then none
  else if sd.1 then
    if digitsValue sd.2 ≤ 2 ^ 63 then some (-(digitsValue sd.2 : Int)) else none
  else
    if digitsValue sd.2 < 2 ^ 63 then some (digitsValue sd.2 : Int) else none

/-! ## The response writer of the `net/http` server -/

/-- Go `http.StatusOK`. -/
def StatusOK : Int := 200

/-- Go `http.StatusSwitchingProtocols`. -/
def StatusSwitchingProtocols : Int := 101

/-- Go `http.StatusBadRequest`. -/
def StatusBadRequest : Int := 400

/-- Go `http.StatusInternalServerError`. -/
def StatusInternalServerError : Int := 500

/-- Go `http.checkWriteHeaderCode`: `true` when the code passes; `WriteHeader`
panics when it does not. -/
def checkWriteHeaderCode (code : Int) : Bool :=
  !(code < 100 || code > 999)

/-- Go `http.bodyAllowedForStatus`. -/
def bodyAllowedForStatus (status : Int) : Bool :=
  if status ≥ 100 ∧ status ≤ 199 then false
  else if status = 204 then false
  else if status = 304 then false
  else true

/-- The `http.ResponseWriter` that the `net/http` server hands to a handler (its
`*response`), as far as the handler's calls determine it:
`reqMethod` is the method of the request being answered, `header` the map that
`Header()` returns, `statusCodes` the codes passed to `WriteHeader` by calls
that returned, in call order, `informational` the 1xx responses sent so far,
`wroteHeader`, `status` and `sentHeader` the final status line and the header
collection frozen with it, `contentLength` the declared length (-1 for none),
`written` the number of body bytes accepted and `body` the body bytes sent to
the caller. -/
structure ResponseWriter where
  reqMethod : String
  header : Header
  statusCodes : List Int
  informational : List (Int × Header)
  wroteHeader : Bool
  status : Int
  sentHeader : Header
  contentLength : Int
  written : Int
  body : List UInt8
  deriving DecidableEq, Repr

/-- The response writer the server creates for a request with the given method. -/
def newResponseWriter (reqMethod : String) : ResponseWriter :=
  { reqMethod := reqMethod, header := [], statusCodes := [], informational := [],
    wroteHeader := false, status := 0, sentHeader := [], contentLength := -1, written := 0,
    body := [] }

/-- Go `(*response).WriteHeader`; `none` when the call panics.  A call after the
header was written is logged as superfluous and ignored; a code outside 100..999
panics; a 1xx code other than 101 sends an informational response at once;
any other code fixes the status, freezes the header collection and reads the
declared `Content-Length`. -/
def ResponseWriter.WriteHeader (w : ResponseWriter) (code : Int) : Option ResponseWriter :=
  if w.wroteHeader then some { w with statusCodes := w.statusCodes ++ [code] }
  else if !checkWriteHeaderCode code then none
  else if code ≥ 100 ∧ code ≤ 199 ∧ code ≠ StatusSwitchingProtocols then
    some { w with
      statusCodes := w.statusCodes ++ [code]
      informational := w.informational ++ [(code, w.header)] }
  else
    let cl := w.header.Get "Content-Length"
    let w1 := { w with
      statusCodes := w.statusCodes ++ [code]
      wroteHeader := true
      status := code
      sentHeader := w.header }
    if cl = "" then some w1
    else
      match ParseInt cl with
      | some v =>
        if v ≥ 0 then some { w1 with contentLength := v }
        else some { w1 with header := w1.header.Del "Content-Length" }
      | none => some { w1 with header := w1.header.Del "Content-Length" }

/-- Go `(*response).Write`: the new state and the error returned, if any
(`http.ErrBodyNotAllowed`, `http.ErrContentLength`).  The first write sends
status 200 when no header was written; nothing of the body of a HEAD request
is sent. -/
def ResponseWriter.Write (w : ResponseWriter) (data : List UInt8) :
    ResponseWriter × Option String :=
  let w1 := if w.wroteHeader then w else (w.WriteHeader StatusOK).getD w
  if data.isEmpty then (w1, none)
  else if !bodyAllowedForStatus w1.status then
    (w1, some "http: request method or response status code does not allow body")
  else
    let w2 := { w1 with written := w1.written + data.length }
    if w2.contentLength ≠ -1 ∧ w2.written > w2.contentLength then
      (w2, some "http: wrote more than the declared Content-Length")
    else if w2.reqMethod = "HEAD" then (w2, none)
    else ({ w2 with body := w2.body ++ data }, none)

/-- The UTF-8 bytes of a string. -/
def stringBytes (s : String) : List UInt8 :=
  s.data.flatMap String.utf8EncodeChar

/-- Go `http.Error`; `none` when `WriteHeader` panics.  A declared
`Content-Length` is deleted, the content type is set to plain text, the status
code is written and then the message followed by a newline. -/
def Error (w : ResponseWriter) (error : String) (code : Int) : Option ResponseWriter :=
  let h := ((w.header.Del "Content-Length").Set "Content-Type"
    "text/plain; charset=utf-8").Set "X-Content-Type-Options" "nosniff"
  match ResponseWriter.WriteHeader { w with header := h } code with
  | none => none
  | some w1 => some (w1.Write (stringBytes (error ++ "\n"))).1

/-- Go `io.Copy(wr, resp.Body)` for a body that is read to its end: a body
without bytes causes no `Write`; otherwise the bytes are handed to `Write`. -/
def ioCopy (w : ResponseWriter) (body : List UInt8) : ResponseWriter × Option String :=
  if body.isEmpty then (w, none) else w.Write body

/-! ## The client -/

/-- Go `http.RoundTripper`: one request over the wire, answered with a response
or with an error. -/
abbrev RoundTripper := Request → Except String Response

/-- The `http.Client` of `main.go` (no `CheckRedirect`, no cookie jar) with what
its redirect handling takes from elsewhere: `Transport` is the round tripper,
`Parse` is `(*url.URL).Parse`, the resolution of a `Location` against the URL of
the request that was answered, and `redirectHeader` gives the header collection
of a follow-up request from the first request, the request that was answered
and the new URL. -/
structure Client where
  Transport : RoundTripper
  Parse : URL → String → Except String URL
  redirectHeader : Request → Request → URL → Header

/-- Go `http.redirectBehavior` for a first request without `GetBody`, as every
request read by the server is: the method of the follow-up request and whether
the response is to be followed. -/
def redirectBehavior (reqMethod : String) (resp : Response) (ireq : Request) : String × Bool :=
  if resp.StatusCode = 301 ∨ resp.StatusCode = 302 ∨ resp.StatusCode = 303 then
    (if reqMethod ≠ "GET" ∧ reqMethod ≠ "HEAD" then "GET" else reqMethod, true)
  else if resp.StatusCode = 307 ∨ resp.StatusCode = 308 then
    (reqMethod, decide (ireq.ContentLength = 0))
  else ("", false)

/-- What one call of `Client.Do` does: the requests handed to the transport, in
order, and the answer returned to the caller of `Do`. -/
structure DoResult where
  sent : List Request
  result : Except String Response

/-- The loop of Go `(*Client).do`: the request is sent; a redirect response
with a `Location` leads to a follow-up request, until the default policy
stops the chain after 10 requests. -/
def Client.follow (c : Client) (ireq : Request) : Nat → Request → List Request → DoResult
  | 0, _, sent => { sent := sent, result := .error "stopped after 10 redirects" }
  | fuel + 1, req, sent =>
    if req.RequestURI ≠ "" then
      { sent := sent,
        result := .error "http: Request.RequestURI can't be set in client requests" }
    else
      match c.Transport req with
      | .error e => { sent := sent ++ [req], result := .error e }
      | .ok resp =>
        if !(redirectBehavior req.Method resp ireq).2 then
          { sent := sent ++ [req], result := .ok resp }
        else if resp.Header.Get "Location" = "" then
          { sent := sent ++ [req], result := .ok resp }
        else
          match c.Parse req.URL (resp.Header.Get "Location") with
          | .error e => { sent := sent ++ [req], result := .error e }
          | .ok u =>
            Client.follow c ireq fuel
              { Method := (redirectBehavior req.Method resp ireq).1
                URL := u
                Header := c.redirectHeader ireq req u
                Body := []
                ContentLength := 0
                RequestURI := ""
                RemoteAddr := "" }
              (sent ++ [req])

/-- Go `(*Client).Do`. -/
def Client.Do (c : Client) (req : Request) : DoResult :=
  Client.follow c req 10 req []

/-- No response of the transport asks for a redirect. -/
def Client.NoRedirect (c : Client) : Prop :=
  ∀ q resp, c.Transport q = .ok resp →
    resp.StatusCode ≠ 301 ∧ resp.StatusCode ≠ 302 ∧ resp.StatusCode ≠ 303 ∧
      resp.StatusCode ≠ 307 ∧ resp.StatusCode ≠ 308

/-! ## The handler -/

/-- What one call of `ServeHTTP` leaves behind: the response writer, the
request object (which the handler mutates in place), the request handed to
`p.client.Do` if that call was made, the requests the client handed to its
transport during that call, whether `log.Fatal` ended the process and whether
the handler panicked. -/
structure Outcome where
  wr : ResponseWriter
  req : Request
  dispatched : Option Request
  sent : List Request
  fatal : Bool
  panicked : Bool
  deriving DecidableEq, Repr

/-- The `proxy.ServeHTTP` of `main.go` (log lines left out). -/
def ServeHTTP (client : Client) (wr : ResponseWriter) (req : Request) : Outcome :=
  if req.URL.Scheme ≠ "http" ∧ req.URL.Scheme ≠ "https" then
    let msg := "unsupported protocol scheme " ++ req.URL.Scheme
    match Error wr msg StatusBadRequest with
    | none =>
      { wr := wr, req := req, dispatched := none, sent := [], fatal := false, panicked := true }
    | some wr =>
      { wr := wr, req := req, dispatched := none, sent := [], fatal := false, panicked := false }
  else
    let req := { req with RequestURI := "" }
    let rewritten : Option Request :=
      if HasSuffix req.URL.Hostname ".svc.cluster.local" then
        let parts := Split req.URL.Hostname '.'
        if parts.length ≠ 5 then none
        else
          let nameSpace := parts.getD 1 ""
          let serviceName := parts.getD 0 ""
          let servicePort := req.URL.Port
          some { req with URL := { req.URL with
            Host := "kubeproxy"
            Scheme := "http+unix"
            Path := "/api/v1/namespaces/" ++ nameSpace ++ "/services/" ++ serviceName ++ ":"
              ++ servicePort ++ "/proxy" ++ req.URL.Path } }
      else some req
    match rewritten with
    | none =>
      let msg := "Invalid kubernetes service url, too many parts"
      match Error wr msg StatusBadRequest with
      | none =>
        { wr := wr, req := req, dispatched := none, sent := [], fatal := false,
          panicked := true }
      | some wr =>
        { wr := wr, req := req, dispatched := none, sent := [], fatal := false,
          panicked := false }
    | some req =>
      let req := { req with Header := delHopHeaders req.Header }
      let done := client.Do req
      match done.result with
      | .error _ =>
        match Error wr "Server Error" StatusInternalServerError with
        | none =>
          { wr := wr, req := req, dispatched := some req, sent := done.sent, fatal := false,
            panicked := true }
        | some wr =>
          { wr := wr, req := req, dispatched := some req, sent := done.sent, fatal := true,
            panicked := false }
      | .ok resp =>
        let resp := { resp with Header := delHopHeaders resp.Header }
        let wr := { wr with header := copyHeader wr.header resp.Header }
        match wr.WriteHeader resp.StatusCode with
        | none =>
          { wr := wr, req := req, dispatched := some req, sent := done.sent, fatal := false,
            panicked := true }
        | some wr =>
          { wr := (ioCopy wr resp.Body).1, req := req, dispatched := some req,
            sent := done.sent, fatal := false, panicked := (ioCopy wr resp.Body).2.isSome }

/-- A request as the HTTP server hands it to the handler: `method` and an
absolute target with the given scheme, host and path. -/
def mkRequest (method scheme host path query : String) : Request :=
  { Method := method
    URL := { Scheme := scheme, Opaque := "", Host := host, Path := path, RawPath := "",
             RawQuery := query, Fragment := "" }
    Header := [("Accept", ["*/*"]), ("Proxy-Connection", ["keep-alive"])]
    Body := []
    ContentLength := 0
    RequestURI := scheme ++ "://" ++ host ++ path
    RemoteAddr := "127.0.0.1:40000" }

/-- The response writer of a GET request to which nothing has been written yet. -/
def freshWriter : ResponseWriter := newResponseWriter "GET"

/-- A stand-in for `(*url.URL).Parse` on the references it is used for below: a
reference that is an absolute path without query or fragment replaces the
path and drops query and fragment; anything else is refused. -/
def parseAbsPath (u : URL) (ref : String) : Except String URL :=
  if ref.data.head? = some '/' ∧ (ref.data.drop 1).head? ≠ some '/' ∧
      ref.data.all (fun c => c ≠ '?' ∧ c ≠ '#' ∧ c ≠ '%') then
    .ok { u with Path := ref, RawPath := "", RawQuery := "", Fragment := "" }
  else .error "reference not covered"

/-- A client over the given transport; a follow-up request carries the headers
of the first request. -/
def clientOver (t : RoundTripper) : Client :=
  { Transport := t, Parse := parseAbsPath, redirectHeader := fun ireq _ _ => ireq.Header }

/-- A backend that answers every request with the same short response. -/
def okClient : Client := clientOver fun _ =>
  .ok { Status := "200 OK", StatusCode := 200,
        Header := [("Content-Type", ["text/plain"]), ("Connection", ["close"])],
        Body := [111, 107] }

/-- The request that `ServeHTTP` hands to the client when the target passes
both checks. -/
def outbound (req : Request) : Request :=
  let req := { req with RequestURI := "" }
  let req :=
    if HasSuffix req.URL.Hostname ".svc.cluster.local" then
      { req with URL := { req.URL with
          Host := "kubeproxy"
          Scheme := "http+unix"
          Path := "/api/v1/namespaces/" ++ (Split req.URL.Hostname '.').getD 1 "" ++ "/services/"
            ++ (Split req.URL.Hostname '.').getD 0 "" ++ ":" ++ req.URL.Port ++ "/proxy"
            ++ req.URL.Path } }
    else req
  { req with Header := delHopHeaders req.Header }


/-! ## The words of the specification about headers -/

/-- The 9 hop-by-hop names as the specification lists them. -/
def hopNames : List String :=
  [ "Connection", "Keep-Alive", "Proxy-Authenticate", "Proxy-Authorization",
    "Proxy-Connection", "TE", "Trailers", "Transfer-Encoding", "Upgrade" ]

/-- Equality of two header names ignoring the case of ASCII letters. -/
def eqIgnoreCase (a b : String) : Bool :=
  a.data.map Char.toLower == b.data.map Char.toLower

/-- A name that equals, ignoring case, one of the 9 hop-by-hop names. -/
def isHopName (k : String) : Bool :=
  hopNames.any (fun n => eqIgnoreCase k n)

/-- A header collection with its hop-by-hop names removed, in the words of the
specification (names compared ignoring case). -/
def withoutHopNames (h : Header) : Header :=
  h.filter (fun e => !isHopName e.1)

/-- The keys of a header collection are in canonical form, as `net/http`
documents for `Header`. -/
def Header.Canonical (h : Header) : Prop :=
  ∀ k ∈ h.keys, CanonicalMIMEHeaderKey k = k

/-- A header collection built from nothing by `Header.Add`, one call per
name and value, the names in any letter case. -/
def Header.ofAdds (kvs : List (String × String)) : Header :=
  kvs.foldl (fun h kv => Header.Add h kv.1 kv.2) []

/-- The characters with a code below 128. -/
def asciiChars : List Char := (List.range 128).map Char.ofNat

/-- A character that, ignoring case, is a letter or a dash: the characters of
the hop-by-hop names. -/
def nameChar (c : Char) : Bool :=
  c.toLower.isLower || c.toLower == '-'

/-- A header collection that holds a hop-by-hop name in lower case. -/
def lowerCaseHeader : Header := [("connection", ["close"]), ("Accept", ["*/*"])]

/-- A header collection as `net/http` reads it from the wire. -/
def wireHeader : Header :=
  [("Accept", ["text/html", "*/*"]), ("Connection", ["keep-alive"]), ("Te", ["trailers"]),
   ("X-Request-Id", ["7"])]

/-- A header collection without hop-by-hop names. -/
def plainHeader : Header := [("Accept", ["text/html", "*/*"]), ("X-Request-Id", ["7"])]

/-- A backend response whose header map holds the key "connection" in lower
case, as a transport that fills the map directly can return. -/
def lowerCaseResponse : Response :=
  { Status := "200 OK", StatusCode := 200, Header := [("connection", ["close"])], Body := [111, 107] }

/-- A backend that answers every request with `lowerCaseResponse`. -/
def lowerCaseClient : Client := clientOver fun _ => .ok lowerCaseResponse

/-- A backend response as `net/http` reads it from the wire. -/
def wireResponse : Response :=
  { Status := "404 Not Found", StatusCode := 404,
    Header := [("Content-Type", ["text/plain"]), ("Content-Length", ["2"]),
               ("Connection", ["close"]), ("Set-Cookie", ["a=1", "b=2"])],
    Body := [111, 107] }

/-- A backend behind the socket that answers the request for "/api/v1/secrets"
with a short document and any other request with a redirect to that path, as
the `http.ServeMux` of `kubectl proxy` does for a path whose dot segments
lead there. -/
def redirectingClient : Client := clientOver fun q =>
  if q.URL.Path = "/api/v1/secrets" then
    .ok { Status := "200 OK", StatusCode := 200,
          Header := [("Content-Type", ["application/json"])], Body := [123, 125] }
  else
    .ok { Status := "301 Moved Permanently", StatusCode := 301,
          Header := [("Location", ["/api/v1/secrets"])], Body := [] }

/-- A backend response with the status line "HTTP/1.1 099 Odd", which the Go
client reads as status code 99. -/
def oddStatusResponse : Response :=
  { Status := "099 Odd", StatusCode := 99,
    Header := [("Content-Type", ["text/plain"]), ("Content-Length", ["2"])],
    Body := [111, 107] }

/-- A backend that answers every request with `oddStatusResponse`. -/
def oddStatusClient : Client := clientOver fun _ => .ok oddStatusResponse

/-- A backend that answers every request with the given response. -/
def answering (r : Response) : Client := clientOver fun _ => .ok r

/-- A backend that answers every request with `wireResponse`. -/
def wireClient : Client := clientOver fun _ => .ok wireResponse

/-! ## The response writer -/

theorem Write_after_header (w : ResponseWriter) (data : List UInt8) (h : w.wroteHeader = true) :
    (w.Write data).1.statusCodes = w.statusCodes ∧ (w.Write data).1.wroteHeader = true ∧
      (w.Write data).1.status = w.status ∧ (w.Write data).1.sentHeader = w.sentHeader ∧
      (w.Write data).1.header = w.header := by
  unfold ResponseWriter.Write
  simp only [h, if_true]
  split
  · exact ⟨rfl, h, rfl, rfl, rfl⟩
  · split
    · exact ⟨rfl, h, rfl, rfl, rfl⟩
    · split
      · exact ⟨rfl, rfl, rfl, rfl, rfl⟩
      · split <;> exact ⟨rfl, rfl, rfl, rfl, rfl⟩

theorem WriteHeader_superfluous (w : ResponseWriter) (code : Int) (h : w.wroteHeader = true) :
    w.WriteHeader code = some { w with statusCodes := w.statusCodes ++ [code] } := by
  unfold ResponseWriter.WriteHeader
  rw [if_pos h]

theorem WriteHeader_final (w : ResponseWriter) (code : Int) (hw : w.wroteHeader = false)
    (hc : code = 101 ∨ (200 ≤ code ∧ code ≤ 999)) :
    ∃ w1, w.WriteHeader code = some w1 ∧ w1.wroteHeader = true ∧ w1.status = code ∧
      w1.sentHeader = w.header ∧ w1.statusCodes = w.statusCodes ++ [code] ∧
      w1.body = w.body ∧ w1.written = w.written ∧ w1.reqMethod = w.reqMethod ∧
      w1.informational = w.informational ∧
      (w1.contentLength = w.contentLength ∨
        (w.header.Get "Content-Length" ≠ "" ∧
          ParseInt (w.header.Get "Content-Length") = some w1.contentLength ∧
          0 ≤ w1.contentLength)) := by
  have hcheck : checkWriteHeaderCode code = true := by
    unfold checkWriteHeaderCode
    rcases hc with h | h
    · subst h; decide
    · simp only [Bool.not_eq_true', Bool.or_eq_false_iff, decide_eq_false_iff_not, not_lt]
      omega
  have hinfo : ¬ (code ≥ 100 ∧ code ≤ 199 ∧ code ≠ StatusSwitchingProtocols) := by
    unfold StatusSwitchingProtocols
    rcases hc with h | h
    · subst h; decide
    · omega
  unfold ResponseWriter.WriteHeader
  simp only [hw, hcheck, if_neg hinfo, Bool.false_eq_true, if_false, Bool.not_true]
  split
  · exact ⟨_, rfl, rfl, rfl, rfl, rfl, rfl, rfl, rfl, rfl, Or.inl rfl⟩
  · rename_i hcl
    split
    · rename_i v hv
      split
      · rename_i hpos
        exact ⟨_, rfl, rfl, rfl, rfl, rfl, rfl, rfl, rfl, rfl, Or.inr ⟨hcl, hv, hpos⟩⟩
      · exact ⟨_, rfl, rfl, rfl, rfl, rfl, rfl, rfl, rfl, rfl, Or.inl rfl⟩
    · exact ⟨_, rfl, rfl, rfl, rfl, rfl, rfl, rfl, rfl, rfl, Or.inl rfl⟩

theorem Error_final (w : ResponseWriter) (msg : String) (code : Int)
    (hc : 200 ≤ code ∧ code ≤ 999) :
    ∃ w1, Error w msg code = some w1 ∧ w1.statusCodes = w.statusCodes ++ [code] ∧
      (w.wroteHeader = false → w1.wroteHeader = true ∧ w1.status = code) := by
  have key : ∀ w0 : ResponseWriter, w0.statusCodes = w.statusCodes →
      w0.wroteHeader = w.wroteHeader →
      ∃ w1, (match w0.WriteHeader code with
          | none => none
          | some w1 => some (w1.Write (stringBytes (msg ++ "\n"))).1) = some w1 ∧
        w1.statusCodes = w.statusCodes ++ [code] ∧
        (w.wroteHeader = false → w1.wroteHeader = true ∧ w1.status = code) := by
    intro w0 hs hwh
    by_cases hw : w0.wroteHeader = true
    · rw [WriteHeader_superfluous w0 code hw]
      have hwr := Write_after_header { w0 with statusCodes := w0.statusCodes ++ [code] }
        (stringBytes (msg ++ "\n")) hw
      refine ⟨_, rfl, ?_, ?_⟩
      · rw [hwr.1]
        show w0.statusCodes ++ [code] = _
        rw [hs]
      · intro h; rw [hwh, h] at hw; exact absurd hw (by decide)
    · have hw2 : w0.wroteHeader = false := by simpa using hw
      obtain ⟨w1, h1, h2, h3, _, h5, _⟩ := WriteHeader_final w0 code hw2 (Or.inr hc)
      rw [h1]
      have hwr := Write_after_header w1 (stringBytes (msg ++ "\n")) h2
      refine ⟨_, rfl, ?_, ?_⟩
      · rw [hwr.1, h5, hs]
      · intro _
        exact ⟨hwr.2.1, by rw [hwr.2.2.1, h3]⟩
  unfold Error
  exact key _ rfl rfl

/-! ## The client -/

theorem follow_sent (c : Client) (ireq : Request) (fuel : Nat) : ∀ (req : Request)
    (sent : List Request), ∃ rest, (c.follow ireq fuel req sent).sent = sent ++ rest := by
  induction fuel with
  | zero => intro req sent; exact ⟨[], by simp [Client.follow]⟩
  | succ n ih =>
    intro req sent
    unfold Client.follow
    split
    · exact ⟨[], by simp⟩
    · split
      · exact ⟨[req], rfl⟩
      · split
        · exact ⟨[req], rfl⟩
        · split
          · exact ⟨[req], rfl⟩
          · split
            · exact ⟨[req], rfl⟩
            · obtain ⟨rest, hrest⟩ := ih _ (sent ++ [req])
              exact ⟨req :: rest, by rw [hrest]; simp⟩

theorem Do_first (c : Client) (req : Request) (h : req.RequestURI = "") :
    ∃ rest, (c.Do req).sent = req :: rest := by
  unfold Client.Do Client.follow
  simp only [h, ne_eq, not_true_eq_false, if_false, List.nil_append]
  split
  · exact ⟨[], rfl⟩
  · split
    · exact ⟨[], rfl⟩
    · split
      · exact ⟨[], rfl⟩
      · split
        · exact ⟨[], rfl⟩
        · obtain ⟨rest, hrest⟩ := follow_sent c req 9 _ [req]
          exact ⟨rest, by rw [hrest]; rfl⟩

theorem Do_no_redirect (c : Client) (req : Request) (h : req.RequestURI = "")
    (hn : c.NoRedirect) : (c.Do req).sent = [req] := by
  unfold Client.Do Client.follow
  simp only [h, ne_eq, not_true_eq_false, if_false, List.nil_append]
  split
  · rfl
  · rename_i resp hresp
    have := hn req resp hresp
    have hb : (redirectBehavior req.Method resp req).2 = false := by
      unfold redirectBehavior
      simp [this.1, this.2.1, this.2.2.1, this.2.2.2.1, this.2.2.2.2]
    simp [hb]

/-! ## The ways through `ServeHTTP` -/

theorem ServeHTTP_bad_scheme (client : Client) (wr : ResponseWriter) (req : Request)
    (h : req.URL.Scheme ≠ "http" ∧ req.URL.Scheme ≠ "https") :
    ∃ w1, Error wr ("unsupported protocol scheme " ++ req.URL.Scheme) StatusBadRequest = some w1 ∧
      w1.statusCodes = wr.statusCodes ++ [400] ∧
      (wr.wroteHeader = false → w1.wroteHeader = true ∧ w1.status = 400) ∧
      ServeHTTP client wr req =
        { wr := w1, req := req, dispatched := none, sent := [], fatal := false,
          panicked := false } := by
  obtain ⟨w1, h1, h2, h3⟩ := Error_final wr ("unsupported protocol scheme " ++ req.URL.Scheme)
    StatusBadRequest (by decide)
  refine ⟨w1, h1, h2, h3, ?_⟩
  unfold ServeHTTP
  rw [if_pos h]
  simp only [h1]

theorem ServeHTTP_bad_labels (client : Client) (wr : ResponseWriter) (req : Request)
    (hs : req.URL.Scheme = "http" ∨ req.URL.Scheme = "https")
    (hsuf : HasSuffix req.URL.Hostname ".svc.cluster.local" = true)
    (hlen : (Split req.URL.Hostname '.').length ≠ 5) :
    ∃ w1, Error wr "Invalid kubernetes service url, too many parts" StatusBadRequest = some w1 ∧
      w1.statusCodes = wr.statusCodes ++ [400] ∧
      (wr.wroteHeader = false → w1.wroteHeader = true ∧ w1.status = 400) ∧
      ServeHTTP client wr req =
        { wr := w1, req := { req with RequestURI := "" }, dispatched := none, sent := [],
          fatal := false, panicked := false } := by
  have h : ¬ (req.URL.Scheme ≠ "http" ∧ req.URL.Scheme ≠ "https") := by
    rcases hs with h | h <;> simp [h]
  obtain ⟨w1, h1, h2, h3⟩ := Error_final wr "Invalid kubernetes service url, too many parts"
    StatusBadRequest (by decide)
  refine ⟨w1, h1, h2, h3, ?_⟩
  unfold ServeHTTP
  rw [if_neg h]
  simp only [hsuf, if_true, if_pos hlen, h1]

theorem ServeHTTP_failed (client : Client) (wr : ResponseWriter) (req : Request) (e : String)
    (hs : req.URL.Scheme = "http" ∨ req.URL.Scheme = "https")
    (hok : HasSuffix req.URL.Hostname ".svc.cluster.local" = true →
      (Split req.URL.Hostname '.').length = 5)
    (hr : (client.Do (outbound req)).result = .error e) :
    ∃ w1, Error wr "Server Error" StatusInternalServerError = some w1 ∧
      ServeHTTP client wr req =
        { wr := w1, req := outbound req, dispatched := some (outbound req),
          sent := (client.Do (outbound req)).sent, fatal := true, panicked := false } := by
  have h : ¬ (req.URL.Scheme ≠ "http" ∧ req.URL.Scheme ≠ "https") := by
    rcases hs with h | h <;> simp [h]
  obtain ⟨w1, h1, _⟩ := Error_final wr "Server Error" StatusInternalServerError (by decide)
  refine ⟨w1, h1, ?_⟩
  unfold ServeHTTP
  unfold outbound at hr ⊢
  rw [if_neg h]
  by_cases hsuf : HasSuffix req.URL.Hostname ".svc.cluster.local" = true
  · have hl : ¬ (Split req.URL.Hostname '.').length ≠ 5 := by simp [hok hsuf]
    simp only [if_pos hsuf, if_neg hl] at hr ⊢
    simp only [hr, h1]
  · simp only [if_neg hsuf] at hr ⊢
    simp only [hr, h1]

theorem ServeHTTP_relay (client : Client) (wr : ResponseWriter) (req : Request)
    (resp : Response)
    (hs : req.URL.Scheme = "http" ∨ req.URL.Scheme = "https")
    (hok : HasSuffix req.URL.Hostname ".svc.cluster.local" = true →
      (Split req.URL.Hostname '.').length = 5)
    (hr : (client.Do (outbound req)).result = .ok resp) :
    ServeHTTP client wr req =
      match ResponseWriter.WriteHeader
          { wr with header := copyHeader wr.header (delHopHeaders resp.Header) }
          resp.StatusCode with
      | none =>
        { wr := { wr with header := copyHeader wr.header (delHopHeaders resp.Header) },
          req := outbound req, dispatched := some (outbound req),
          sent := (client.Do (outbound req)).sent, fatal := false, panicked := true }
      | some w1 =>
        { wr := (ioCopy w1 resp.Body).1, req := outbound req,
          dispatched := some (outbound req), sent := (client.Do (outbound req)).sent,
          fatal := false, panicked := (ioCopy w1 resp.Body).2.isSome } := by
  have h : ¬ (req.URL.Scheme ≠ "http" ∧ req.URL.Scheme ≠ "https") := by
    rcases hs with h | h <;> simp [h]
  unfold ServeHTTP
  unfold outbound at hr ⊢
  rw [if_neg h]
  by_cases hsuf : HasSuffix req.URL.Hostname ".svc.cluster.local" = true
  · have hl : ¬ (Split req.URL.Hostname '.').length ≠ 5 := by simp [hok hsuf]
    simp only [if_pos hsuf, if_neg hl] at hr ⊢
    simp only [hr]
  · simp only [if_neg hsuf] at hr ⊢
    simp only [hr]

theorem ServeHTTP_dispatched (client : Client) (wr : ResponseWriter) (req : Request)
    (hs : req.URL.Scheme = "http" ∨ req.URL.Scheme = "https")
    (hok : HasSuffix req.URL.Hostname ".svc.cluster.local" = true →
      (Split req.URL.Hostname '.').length = 5) :
    (ServeHTTP client wr req).dispatched = some (outbound req) ∧
      (ServeHTTP client wr req).req = outbound req ∧
      (ServeHTTP client wr req).sent = (client.Do (outbound req)).sent := by
  cases hr : (client.Do (outbound req)).result with
  | error e =>
    obtain ⟨w1, _, h2⟩ := ServeHTTP_failed client wr req e hs hok hr
    rw [h2]
    exact ⟨rfl, rfl, rfl⟩
  | ok resp =>
    rw [ServeHTTP_relay client wr req resp hs hok hr]
    split <;> exact ⟨rfl, rfl, rfl⟩

theorem dispatched_some (client : Client) (wr : ResponseWriter) (req out : Request)
    (hd : (ServeHTTP client wr req).dispatched = some out) :
    out = outbound req ∧ (req.URL.Scheme = "http" ∨ req.URL.Scheme = "https") ∧
      (HasSuffix req.URL.Hostname ".svc.cluster.local" = true →
        (Split req.URL.Hostname '.').length = 5) := by
  by_cases hs : req.URL.Scheme = "http" ∨ req.URL.Scheme = "https"
  · by_cases hok : HasSuffix req.URL.Hostname ".svc.cluster.local" = true →
        (Split req.URL.Hostname '.').length = 5
    · rw [(ServeHTTP_dispatched client wr req hs hok).1] at hd
      exact ⟨(Option.some.inj hd).symm, hs, hok⟩
    · have hsuf : HasSuffix req.URL.Hostname ".svc.cluster.local" = true := by
        by_contra hn
        exact hok (fun h => absurd h hn)
      have hlen : (Split req.URL.Hostname '.').length ≠ 5 := fun h => hok (fun _ => h)
      obtain ⟨w1, _, _, _, e⟩ := ServeHTTP_bad_labels client wr req hs hsuf hlen
      rw [e] at hd
      exact absurd hd (by simp)
  · have hs2 : req.URL.Scheme ≠ "http" ∧ req.URL.Scheme ≠ "https" :=
      ⟨fun h => hs (Or.inl h), fun h => hs (Or.inr h)⟩
    obtain ⟨w1, _, _, _, e⟩ := ServeHTTP_bad_scheme client wr req hs2
    rw [e] at hd
    exact absurd hd (by simp)

theorem outbound_RequestURI (req : Request) : (outbound req).RequestURI = "" := by
  unfold outbound
  by_cases hsuf : HasSuffix req.URL.Hostname ".svc.cluster.local" = true
  · simp only [if_pos hsuf]
  · simp only [if_neg hsuf]

/-! ## Pass-through targets -/

/-- C2: a request with scheme http or https whose hostname does not end with
".svc.cluster.local" is handed to the client with its method, scheme, host
(port included), path and query as they arrived; the whole URL is unchanged. -/
theorem passthrough_target_unchanged (client : Client) (wr : ResponseWriter) (req : Request)
    (hs : req.URL.Scheme = "http" ∨ req.URL.Scheme = "https")
    (hh : HasSuffix req.URL.Hostname ".svc.cluster.local" = false) :
    ∃ out, (ServeHTTP client wr req).dispatched = some out ∧
      out.Method = req.Method ∧ out.URL.Scheme = req.URL.Scheme ∧
      out.URL.Host = req.URL.Host ∧ out.URL.Path = req.URL.Path ∧
      out.URL.RawQuery = req.URL.RawQuery ∧ out.URL = req.URL ∧ out.Body = req.Body := by
  have hd := (ServeHTTP_dispatched client wr req hs (by simp [hh])).1
  refine ⟨outbound req, hd, ?_⟩
  simp [outbound, hh]

theorem passthrough_target_unchanged_witness :
    ∃ out, (ServeHTTP okClient freshWriter
        (mkRequest "GET" "http" "example.com:9999" "/abc" "x=1")).dispatched = some out ∧
      out.Method = "GET" ∧ out.URL.Scheme = "http" ∧ out.URL.Host = "example.com:9999" ∧
      out.URL.Path = "/abc" ∧ out.URL.RawQuery = "x=1" ∧
      out.URL = (mkRequest "GET" "http" "example.com:9999" "/abc" "x=1").URL ∧
      out.Body = (mkRequest "GET" "http" "example.com:9999" "/abc" "x=1").Body :=
  passthrough_target_unchanged okClient freshWriter
    (mkRequest "GET" "http" "example.com:9999" "/abc" "x=1") (Or.inl rfl) (by decide)

/-! ## Rejections -/

/-- C3: a request with scheme http or https whose hostname ends with
".svc.cluster.local" but does not split into exactly 5 labels is answered with
status 400; the client is not called and nothing is sent, whatever client is
installed, and the URL of the request object is left as it was. -/
theorem bad_label_count_rejected (client : Client) (wr : ResponseWriter) (req : Request)
    (hs : req.URL.Scheme = "http" ∨ req.URL.Scheme = "https")
    (hsuf : HasSuffix req.URL.Hostname ".svc.cluster.local" = true)
    (hlen : (Split req.URL.Hostname '.').length ≠ 5) :
    (ServeHTTP client wr req).wr.statusCodes = wr.statusCodes ++ [400] ∧
      (ServeHTTP client wr req).dispatched = none ∧
      (∀ other : Client, ServeHTTP other wr req = ServeHTTP client wr req) ∧
      (ServeHTTP client wr req).req.URL = req.URL ∧
      (ServeHTTP client wr req).req.URL.Scheme = req.URL.Scheme ∧
      (ServeHTTP client wr req).req.URL.Host = req.URL.Host ∧
      (ServeHTTP client wr req).req.URL.Path = req.URL.Path ∧
      (ServeHTTP client wr req).sent = [] ∧
      (ServeHTTP client wr req).panicked = false ∧
      (wr.wroteHeader = false →
        (ServeHTTP client wr req).wr.wroteHeader = true ∧
          (ServeHTTP client wr req).wr.status = 400) := by
  obtain ⟨w1, h1, h2, h3, h⟩ := ServeHTTP_bad_labels client wr req hs hsuf hlen
  refine ⟨?_, ?_, ?_, ?_, ?_, ?_, ?_, ?_, ?_, ?_⟩
  · rw [h]; exact h2
  · rw [h]
  · intro other
    obtain ⟨w2, g1, _, _, g⟩ := ServeHTTP_bad_labels other wr req hs hsuf hlen
    have e : w2 = w1 := Option.some.inj (g1.symm.trans h1)
    rw [h, g, e]
  · rw [h]
  · rw [h]
  · rw [h]
  · rw [h]
  · rw [h]
  · rw [h]
  · rw [h]; exact h3

theorem bad_label_count_rejected_witness :
    (ServeHTTP okClient freshWriter
        (mkRequest "GET" "http" "a.b.c.svc.cluster.local" "/" "")).wr.statusCodes
        = freshWriter.statusCodes ++ [400] ∧
      (ServeHTTP okClient freshWriter
        (mkRequest "GET" "http" "a.b.c.svc.cluster.local" "/" "")).dispatched = none :=
  have h := bad_label_count_rejected okClient freshWriter
    (mkRequest "GET" "http" "a.b.c.svc.cluster.local" "/" "") (Or.inl rfl) (by decide) (by decide)
  ⟨h.1, h.2.1⟩

/-- C4: a request whose scheme is neither http nor https is answered with status
400, its URL is not rewritten, the client is not called and nothing is sent,
whatever the hostname; a request whose scheme is http or https is turned away
only by the label-count check, never by the scheme check. -/
theorem scheme_check (client : Client) (wr : ResponseWriter) (req : Request) :
    (req.URL.Scheme ≠ "http" ∧ req.URL.Scheme ≠ "https" →
      (ServeHTTP client wr req).wr.statusCodes = wr.statusCodes ++ [400] ∧
        (ServeHTTP client wr req).req = req ∧
        (ServeHTTP client wr req).dispatched = none ∧
        (∀ other : Client, ServeHTTP other wr req = ServeHTTP client wr req) ∧
        (ServeHTTP client wr req).sent = [] ∧
        (ServeHTTP client wr req).panicked = false ∧
        (wr.wroteHeader = false →
          (ServeHTTP client wr req).wr.wroteHeader = true ∧
            (ServeHTTP client wr req).wr.status = 400)) ∧
    (req.URL.Scheme = "http" ∨ req.URL.Scheme = "https" →
      (ServeHTTP client wr req).dispatched ≠ none ∨
        (HasSuffix req.URL.Hostname ".svc.cluster.local" = true ∧
          (Split req.URL.Hostname '.').length ≠ 5 ∧
          Error wr "Invalid kubernetes service url, too many parts" StatusBadRequest
            = some (ServeHTTP client wr req).wr)) := by
  constructor
  · intro h
    obtain ⟨w1, h1, h2, h3, e⟩ := ServeHTTP_bad_scheme client wr req h
    refine ⟨?_, ?_, ?_, ?_, ?_, ?_, ?_⟩
    · rw [e]; exact h2
    · rw [e]
    · rw [e]
    · intro other
      obtain ⟨w2, g1, _, _, g⟩ := ServeHTTP_bad_scheme other wr req h
      have e2 : w2 = w1 := Option.some.inj (g1.symm.trans h1)
      rw [e, g, e2]
    · rw [e]
    · rw [e]
    · rw [e]; exact h3
  · intro hs
    by_cases hsuf : HasSuffix req.URL.Hostname ".svc.cluster.local" = true
    · by_cases hlen : (Split req.URL.Hostname '.').length = 5
      · left
        rw [(ServeHTTP_dispatched client wr req hs (fun _ => hlen)).1]
        simp
      · right
        refine ⟨hsuf, hlen, ?_⟩
        obtain ⟨w1, h1, _, _, e⟩ := ServeHTTP_bad_labels client wr req hs hsuf hlen
        rw [e, h1]
    · left
      rw [(ServeHTTP_dispatched client wr req hs (fun h => absurd h hsuf)).1]
      simp

theorem scheme_check_witness :
    ((ServeHTTP okClient freshWriter
        (mkRequest "GET" "ftp" "a.b.svc.cluster.local" "/" "")).wr.statusCodes
        = freshWriter.statusCodes ++ [400] ∧
      (ServeHTTP okClient freshWriter (mkRequest "GET" "ftp" "a.b.svc.cluster.local" "/" "")).req
        = mkRequest "GET" "ftp" "a.b.svc.cluster.local" "/" "" ∧
      (ServeHTTP okClient freshWriter
        (mkRequest "GET" "ftp" "a.b.svc.cluster.local" "/" "")).dispatched = none) ∧
    ((ServeHTTP okClient freshWriter
        (mkRequest "GET" "https" "example.com" "/" "")).dispatched ≠ none ∨
      (HasSuffix (mkRequest "GET" "https" "example.com" "/" "").URL.Hostname
          ".svc.cluster.local" = true ∧
        (Split (mkRequest "GET" "https" "example.com" "/" "").URL.Hostname '.').length ≠ 5 ∧
        Error freshWriter "Invalid kubernetes service url, too many parts" StatusBadRequest
          = some (ServeHTTP okClient freshWriter
              (mkRequest "GET" "https" "example.com" "/" "")).wr)) :=
  have h := (scheme_check okClient freshWriter
    (mkRequest "GET" "ftp" "a.b.svc.cluster.local" "/" "")).1 (by decide)
  ⟨⟨h.1, h.2.1, h.2.2.1⟩,
    (scheme_check okClient freshWriter (mkRequest "GET" "https" "example.com" "/" "")).2
      (Or.inr rfl)⟩

/-! ## The scenario `GET http://foo.svc.cluster.local/` -/

/-- C8, as stated, fails: the hostname foo.svc.cluster.local ends with
".svc.cluster.local" and has 4 labels, so the request is answered with status
400 and no request with the path "/api/v1/namespaces/svc/services/foo:/proxy/"
is dispatched. -/
theorem four_label_scenario_not_rewritten :
    ¬ ∃ out, (ServeHTTP okClient freshWriter
        (mkRequest "GET" "http" "foo.svc.cluster.local" "/" "")).dispatched = some out ∧
      out.URL.Path = "/api/v1/namespaces/svc/services/foo:/proxy/" := by
  decide

/-- C8, amended: `GET http://foo.svc.cluster.local/` is answered with status 400
and nothing is dispatched; the five-label `GET http://foo.bar.svc.cluster.local/`
with no port is dispatched with the path
"/api/v1/namespaces/bar/services/foo:/proxy/", the empty port kept as it is. -/
theorem no_port_scenarios (client : Client) (wr : ResponseWriter) :
    ((ServeHTTP client wr (mkRequest "GET" "http" "foo.svc.cluster.local" "/" "")).dispatched
        = none ∧
      (ServeHTTP client wr (mkRequest "GET" "http" "foo.svc.cluster.local" "/" "")).wr.statusCodes
        = wr.statusCodes ++ [400]) ∧
    ∃ out, (ServeHTTP client wr
        (mkRequest "GET" "http" "foo.bar.svc.cluster.local" "/" "")).dispatched = some out ∧
      out.URL.Scheme = "http+unix" ∧ out.URL.Host = "kubeproxy" ∧
      out.URL.Path = "/api/v1/namespaces/bar/services/foo:/proxy/" := by
  constructor
  · obtain ⟨w1, _, h2, _, h⟩ := ServeHTTP_bad_labels client wr
      (mkRequest "GET" "http" "foo.svc.cluster.local" "/" "") (Or.inl rfl) (by decide) (by decide)
    rw [h]
    exact ⟨rfl, h2⟩
  · refine ⟨_, (ServeHTTP_dispatched client wr
      (mkRequest "GET" "http" "foo.bar.svc.cluster.local" "/" "") (Or.inl rfl)
      (fun _ => by decide)).1, ?_⟩
    decide

/-! ## `Split` at a single character -/

theorem splitChars_ne_nil (sep : Char) (s : List Char) : splitChars sep s ≠ [] := by
  induction s with
  | nil => simp [splitChars]
  | cons c cs ih =>
    unfold splitChars
    split
    · simp
    · split <;> simp

theorem splitChars_of_not_mem (sep : Char) (s : List Char) (h : sep ∉ s) :
    splitChars sep s = [s] := by
  induction s with
  | nil => rfl
  | cons c cs ih =>
    have hc : ¬ c = sep := fun e => h (by simp [e])
    have hcs : sep ∉ cs := fun e => h (List.mem_cons_of_mem _ e)
    unfold splitChars
    rw [if_neg hc, ih hcs]

theorem splitChars_append (sep : Char) (x y : List Char) :
    splitChars sep (x ++ sep :: y) = splitChars sep x ++ splitChars sep y := by
  induction x with
  | nil => simp [splitChars]
  | cons c cs ih =>
    have e : (c :: cs) ++ sep :: y = c :: (cs ++ sep :: y) := rfl
    rw [e]
    by_cases hc : c = sep
    · simp only [splitChars, if_pos hc, ih, List.cons_append]
    · simp only [splitChars, if_neg hc, ih]
      cases hx : splitChars sep cs with
      | nil => exact absurd hx (splitChars_ne_nil sep cs)
      | cons p ps => simp

theorem splitChars_length_two (sep : Char) (s : List Char)
    (h : (splitChars sep s).length = 2) :
    ∃ a b, s = a ++ sep :: b ∧ sep ∉ a ∧ sep ∉ b ∧ splitChars sep s = [a, b] := by
  induction s with
  | nil => simp [splitChars] at h
  | cons c cs ih =>
    by_cases hc : c = sep
    · subst hc
      simp only [splitChars, if_true, List.length_cons] at h
      have h1 : (splitChars c cs).length = 1 := by omega
      have hmem : c ∉ cs := by
        intro hm
        obtain ⟨u, v, huv⟩ := List.append_of_mem hm
        rw [huv, splitChars_append] at h1
        have hu := splitChars_ne_nil c u
        have hv := splitChars_ne_nil c v
        cases hu1 : splitChars c u with
        | nil => exact hu hu1
        | cons p ps =>
          cases hv1 : splitChars c v with
          | nil => exact hv hv1
          | cons q qs =>
            rw [hu1, hv1] at h1
            simp at h1
      refine ⟨[], cs, rfl, by simp, hmem, ?_⟩
      simp [splitChars, splitChars_of_not_mem c cs hmem]
    · simp only [splitChars, if_neg hc] at h
      cases hx : splitChars sep cs with
      | nil => exact absurd hx (splitChars_ne_nil sep cs)
      | cons p ps =>
        rw [hx] at h
        have h2 : (splitChars sep cs).length = 2 := by rw [hx]; simpa using h
        obtain ⟨a, b, hab, ha, hb, hsp⟩ := ih h2
        refine ⟨c :: a, b, by simp [hab], ?_, hb, ?_⟩
        · intro hm
          rcases List.mem_cons.mp hm with e | e
          · exact hc e.symm
          · exact ha e
        · simp only [splitChars, if_neg hc, hsp]

theorem Split_service_hostname (hn : String)
    (hsuf : HasSuffix hn ".svc.cluster.local" = true)
    (hlen : (Split hn '.').length = 5) :
    ∃ a b : String, hn = a ++ "." ++ b ++ ".svc.cluster.local" ∧
      '.' ∉ a.data ∧ '.' ∉ b.data ∧ Split hn '.' = [a, b, "svc", "cluster", "local"] := by
  unfold HasSuffix at hsuf
  rw [List.isSuffixOf_iff_suffix] at hsuf
  obtain ⟨p, hp⟩ := hsuf
  have hdata : hn.data = p ++ '.' :: ("svc".data ++ '.' :: ("cluster".data ++ '.' :: "local".data)) := by
    rw [← hp]; rfl
  have hsplit : splitChars '.' hn.data
      = splitChars '.' p ++ ["svc".data, "cluster".data, "local".data] := by
    rw [hdata, splitChars_append, splitChars_append, splitChars_append]
    rfl
  have hl2 : (splitChars '.' p).length = 2 := by
    have : (splitChars '.' hn.data).length = 5 := by simpa [Split] using hlen
    rw [hsplit] at this
    simpa using this
  obtain ⟨a, b, hab, ha, hb, hsp⟩ := splitChars_length_two '.' p hl2
  refine ⟨String.mk a, String.mk b, ?_, ha, hb, ?_⟩
  · apply String.ext
    simp only [String.data_append]
    rw [hdata, hab]
    simp
  · unfold Split
    rw [hsplit, hsp]
    rfl

theorem Split_of_service_form (a b : String) (ha : '.' ∉ a.data) (hb : '.' ∉ b.data) :
    HasSuffix (a ++ "." ++ b ++ ".svc.cluster.local") ".svc.cluster.local" = true ∧
      Split (a ++ "." ++ b ++ ".svc.cluster.local") '.' = [a, b, "svc", "cluster", "local"] := by
  constructor
  · unfold HasSuffix
    rw [List.isSuffixOf_iff_suffix]
    exact ⟨(a ++ "." ++ b).data, rfl⟩
  · have hdata : (a ++ "." ++ b ++ ".svc.cluster.local").data
        = a.data ++ '.' :: (b.data ++ '.' :: ("svc".data ++ '.' ::
            ("cluster".data ++ '.' :: "local".data))) := by
      simp only [String.data_append]
      simp
    unfold Split
    rw [hdata, splitChars_append, splitChars_append, splitChars_append, splitChars_append,
      splitChars_of_not_mem '.' a.data ha, splitChars_of_not_mem '.' b.data hb]
    rfl

/-! ## The port of a host -/

theorem LastIndexByte_of_not_mem (c : Char) (s : List Char) (h : c ∉ s) :
    LastIndexByte s c = none := by
  induction s with
  | nil => rfl
  | cons x xs ih =>
    have hx : ¬ x = c := fun e => h (by simp [e])
    have hxs : c ∉ xs := fun e => h (List.mem_cons_of_mem _ e)
    simp [LastIndexByte, ih hxs, hx]

theorem LastIndexByte_append (c : Char) (s p : List Char) (h : c ∉ p) :
    LastIndexByte (s ++ c :: p) c = some s.length := by
  induction s with
  | nil => simp [LastIndexByte, LastIndexByte_of_not_mem c p h]
  | cons x xs ih =>
    have e : (x :: xs) ++ c :: p = x :: (xs ++ c :: p) := rfl
    rw [e]
    simp [LastIndexByte, ih]

theorem drop_past_colon (s p : List Char) (c : Char) :
    List.drop (s.length + 1) (s ++ c :: p) = p := by
  induction s with
  | nil => rfl
  | cons x xs ih => simp

theorem Port_of_no_colon (u : URL) (h : ':' ∉ u.Host.data) : u.Port = "" := by
  unfold URL.Port splitHostPort
  simp only [LastIndexByte_of_not_mem ':' u.Host.data h]

theorem Port_of_digits (u : URL) (host port : String)
    (h : u.Host = host ++ ":" ++ port)
    (hd : ∀ c ∈ port.data, '0' ≤ c ∧ c ≤ '9') : u.Port = port := by
  have hnc : ':' ∉ port.data := by
    intro hm
    have := hd ':' hm
    exact absurd this.2 (by decide)
  have hdata : u.Host.data = host.data ++ ':' :: port.data := by
    rw [h]; simp
  have hv : validOptionalPort (':' :: port.data) = true := by
    simp only [validOptionalPort, beq_self_eq_true, Bool.true_and, List.all_eq_true]
    intro c hc
    have := hd c hc
    simp [Char.not_lt.mpr this.1, Char.not_lt.mpr this.2]
  unfold URL.Port splitHostPort
  simp only [hdata, LastIndexByte_append ':' host.data port.data hnc, drop_past_colon]
  simp [hv]

/-! ## Service addresses -/

/-- C1: a request with scheme http or https whose hostname ends with
".svc.cluster.local" and splits at "." into exactly 5 labels has a hostname
a.b.svc.cluster.local with a and b its first two labels, and is dispatched with scheme
"http+unix", host "kubeproxy" and the path "/api/v1/namespaces/" + b +
"/services/" + a + ":" + port + "/proxy" + the original path, where port is
`URL.Port()` of the original URL, which is empty when the host holds no colon. -/
theorem service_address_rewritten (client : Client) (wr : ResponseWriter) (req : Request)
    (hs : req.URL.Scheme = "http" ∨ req.URL.Scheme = "https")
    (hsuf : HasSuffix req.URL.Hostname ".svc.cluster.local" = true)
    (hlen : (Split req.URL.Hostname '.').length = 5) :
    ∃ (a b : String) (out : Request),
      req.URL.Hostname = a ++ "." ++ b ++ ".svc.cluster.local" ∧
      '.' ∉ a.data ∧ '.' ∉ b.data ∧
      Split req.URL.Hostname '.' = [a, b, "svc", "cluster", "local"] ∧
      (ServeHTTP client wr req).dispatched = some out ∧
      out.URL.Scheme = "http+unix" ∧ out.URL.Host = "kubeproxy" ∧
      out.URL.Path = "/api/v1/namespaces/" ++ b ++ "/services/" ++ a ++ ":" ++ req.URL.Port
        ++ "/proxy" ++ req.URL.Path ∧
      (':' ∉ req.URL.Host.data → req.URL.Port = "") ∧
      (∀ host port : String, req.URL.Host = host ++ ":" ++ port →
        (∀ c ∈ port.data, '0' ≤ c ∧ c ≤ '9') → req.URL.Port = port) := by
  obtain ⟨a, b, hab, ha, hb, hsp⟩ := Split_service_hostname req.URL.Hostname hsuf hlen
  refine ⟨a, b, outbound req, hab, ha, hb, hsp,
    (ServeHTTP_dispatched client wr req hs (fun _ => hlen)).1, ?_, ?_, ?_,
    Port_of_no_colon req.URL, Port_of_digits req.URL⟩
  · simp [outbound, hsuf]
  · simp [outbound, hsuf]
  · simp [outbound, hsuf, hsp]

theorem service_address_rewritten_witness :
    ∃ (a b : String) (out : Request),
      (mkRequest "GET" "https" "web.shop.svc.cluster.local:8443" "/cart" "").URL.Hostname
        = a ++ "." ++ b ++ ".svc.cluster.local" ∧
      '.' ∉ a.data ∧ '.' ∉ b.data ∧
      Split (mkRequest "GET" "https" "web.shop.svc.cluster.local:8443" "/cart" "").URL.Hostname '.'
        = [a, b, "svc", "cluster", "local"] ∧
      (ServeHTTP okClient freshWriter
        (mkRequest "GET" "https" "web.shop.svc.cluster.local:8443" "/cart" "")).dispatched
        = some out ∧
      out.URL.Scheme = "http+unix" ∧ out.URL.Host = "kubeproxy" ∧
      out.URL.Path = "/api/v1/namespaces/" ++ b ++ "/services/" ++ a ++ ":"
        ++ (mkRequest "GET" "https" "web.shop.svc.cluster.local:8443" "/cart" "").URL.Port
        ++ "/proxy" ++ (mkRequest "GET" "https" "web.shop.svc.cluster.local:8443" "/cart" "").URL.Path ∧
      (':' ∉ (mkRequest "GET" "https" "web.shop.svc.cluster.local:8443" "/cart" "").URL.Host.data →
        (mkRequest "GET" "https" "web.shop.svc.cluster.local:8443" "/cart" "").URL.Port = "") ∧
      (∀ host port : String,
        (mkRequest "GET" "https" "web.shop.svc.cluster.local:8443" "/cart" "").URL.Host
          = host ++ ":" ++ port →
        (∀ c ∈ port.data, '0' ≤ c ∧ c ≤ '9') →
        (mkRequest "GET" "https" "web.shop.svc.cluster.local:8443" "/cart" "").URL.Port = port) :=
  service_address_rewritten okClient freshWriter
    (mkRequest "GET" "https" "web.shop.svc.cluster.local:8443" "/cart" "")
    (Or.inr rfl) (by decide) (by decide)


/-! ## The local channel -/

/-- C10, as stated, fails: for `GET http://a.b.svc.cluster.local:80` with the
path "/../../../../../../../api/v1/secrets" the rewritten request goes out, the
backend answers with a redirect, and the client then sends a second request
with scheme "http+unix" and host "kubeproxy" whose path is "/api/v1/secrets",
a path that does not start with "/api/v1/namespaces/"; its answer is relayed
to the caller. -/
theorem redirect_reaches_other_path :
    (ServeHTTP redirectingClient freshWriter
        (mkRequest "GET" "http" "a.b.svc.cluster.local:80"
          "/../../../../../../../api/v1/secrets" "")).sent.map
        (fun q => (q.URL.Scheme, q.URL.Host, q.URL.Path))
      = [("http+unix", "kubeproxy",
            "/api/v1/namespaces/b/services/a:80/proxy/../../../../../../../api/v1/secrets"),
         ("http+unix", "kubeproxy", "/api/v1/secrets")] ∧
    "/api/v1/namespaces/".data.isPrefixOf "/api/v1/secrets".data = false ∧
    (ServeHTTP redirectingClient freshWriter
        (mkRequest "GET" "http" "a.b.svc.cluster.local:80"
          "/../../../../../../../api/v1/secrets" "")).wr.body = [123, 125] := by
  decide

/-- C10, amended: the request that `ServeHTTP` itself hands to the client, when
its scheme is "http+unix", has host "kubeproxy" and the path
"/api/v1/namespaces/" + b + "/services/" + a + ":" + port + "/proxy" + the
original path, a and b the first two labels of the hostname and the original
path appended as it came; a request that arrives with scheme "http+unix" is not
dispatched and nothing is sent; the first request the client sends is the
dispatched one, and it is the only one when the backend never answers with a
redirect status. -/
theorem unix_dispatch_is_rewritten (client : Client) (wr : ResponseWriter) (req : Request) :
    (∀ out, (ServeHTTP client wr req).dispatched = some out → out.URL.Scheme = "http+unix" →
      out.URL.Host = "kubeproxy" ∧
        ∃ a b, Split req.URL.Hostname '.' = [a, b, "svc", "cluster", "local"] ∧
          out.URL.Path = "/api/v1/namespaces/" ++ b ++ "/services/" ++ a ++ ":" ++ req.URL.Port
            ++ "/proxy" ++ req.URL.Path) ∧
    (req.URL.Scheme = "http+unix" →
      (ServeHTTP client wr req).dispatched = none ∧ (ServeHTTP client wr req).sent = []) ∧
    (∀ out, (ServeHTTP client wr req).dispatched = some out →
      ∃ rest, (ServeHTTP client wr req).sent = out :: rest) ∧
    (client.NoRedirect → ∀ out, (ServeHTTP client wr req).dispatched = some out →
      (ServeHTTP client wr req).sent = [out]) := by
  refine ⟨?_, ?_, ?_, ?_⟩
  · intro out hd hu
    obtain ⟨rfl, hs, hok⟩ := dispatched_some client wr req out hd
    by_cases hsuf : HasSuffix req.URL.Hostname ".svc.cluster.local" = true
    · obtain ⟨a, b, _, _, _, hsp⟩ := Split_service_hostname req.URL.Hostname hsuf (hok hsuf)
      refine ⟨by simp [outbound, hsuf], a, b, hsp, ?_⟩
      simp [outbound, hsuf, hsp]
    · have hsc : (outbound req).URL.Scheme = req.URL.Scheme := by simp [outbound, hsuf]
      rw [hsc] at hu
      rcases hs with h | h <;> rw [h] at hu <;> exact absurd hu (by decide)
  · intro h
    have hs2 : req.URL.Scheme ≠ "http" ∧ req.URL.Scheme ≠ "https" := by
      rw [h]; decide
    obtain ⟨w1, _, _, _, e⟩ := ServeHTTP_bad_scheme client wr req hs2
    rw [e]
    exact ⟨rfl, rfl⟩
  · intro out hd
    obtain ⟨rfl, hs, hok⟩ := dispatched_some client wr req out hd
    rw [(ServeHTTP_dispatched client wr req hs hok).2.2]
    exact Do_first client (outbound req) (outbound_RequestURI req)
  · intro hn out hd
    obtain ⟨rfl, hs, hok⟩ := dispatched_some client wr req out hd
    rw [(ServeHTTP_dispatched client wr req hs hok).2.2]
    exact Do_no_redirect client (outbound req) (outbound_RequestURI req) hn

theorem unix_dispatch_is_rewritten_witness :
    ((outbound (mkRequest "GET" "http" "web.shop.svc.cluster.local:8080" "/cart" "")).URL.Host
        = "kubeproxy" ∧
      ∃ a b, Split (mkRequest "GET" "http" "web.shop.svc.cluster.local:8080" "/cart" "").URL.Hostname
          '.' = [a, b, "svc", "cluster", "local"] ∧
        (outbound (mkRequest "GET" "http" "web.shop.svc.cluster.local:8080" "/cart" "")).URL.Path
          = "/api/v1/namespaces/" ++ b ++ "/services/" ++ a ++ ":"
            ++ (mkRequest "GET" "http" "web.shop.svc.cluster.local:8080" "/cart" "").URL.Port
            ++ "/proxy"
            ++ (mkRequest "GET" "http" "web.shop.svc.cluster.local:8080" "/cart" "").URL.Path) ∧
    ((ServeHTTP okClient freshWriter
        (mkRequest "GET" "http+unix" "kubeproxy" "/api/v1/secrets" "")).dispatched = none ∧
      (ServeHTTP okClient freshWriter
        (mkRequest "GET" "http+unix" "kubeproxy" "/api/v1/secrets" "")).sent = []) ∧
    (ServeHTTP okClient freshWriter
        (mkRequest "GET" "http" "web.shop.svc.cluster.local:8080" "/cart" "")).sent
      = [outbound (mkRequest "GET" "http" "web.shop.svc.cluster.local:8080" "/cart" "")] :=
  ⟨(unix_dispatch_is_rewritten okClient freshWriter
      (mkRequest "GET" "http" "web.shop.svc.cluster.local:8080" "/cart" "")).1
      (outbound (mkRequest "GET" "http" "web.shop.svc.cluster.local:8080" "/cart" ""))
      (by decide) (by decide),
    (unix_dispatch_is_rewritten okClient freshWriter
      (mkRequest "GET" "http+unix" "kubeproxy" "/api/v1/secrets" "")).2.1 rfl,
    (unix_dispatch_is_rewritten okClient freshWriter
      (mkRequest "GET" "http" "web.shop.svc.cluster.local:8080" "/cart" "")).2.2.2
      (fun q resp h => by
        have e : resp.StatusCode = 200 := by
          simp only [okClient, clientOver] at h
          cases h
          rfl
        rw [e]
        decide)
      (outbound (mkRequest "GET" "http" "web.shop.svc.cluster.local:8080" "/cart" ""))
      (by decide)⟩

/-! ## Letter case of ASCII characters -/

theorem isUpper_iff (c : Char) : c.isUpper = true ↔ 65 ≤ c.toNat ∧ c.toNat ≤ 90 := by
  simp only [Char.isUpper, Bool.and_eq_true, decide_eq_true_eq, ge_iff_le, UInt32.le_def,
    BitVec.le_def, Char.toNat, UInt32.toNat]
  rfl

theorem isLower_iff (c : Char) : c.isLower = true ↔ 97 ≤ c.toNat ∧ c.toNat ≤ 122 := by
  simp only [Char.isLower, Bool.and_eq_true, decide_eq_true_eq, ge_iff_le, UInt32.le_def,
    BitVec.le_def, Char.toNat, UInt32.toNat]
  rfl

theorem mem_asciiChars (c : Char) (h : c.toNat < 128) : c ∈ asciiChars := by
  unfold asciiChars
  rw [List.mem_map]
  exact ⟨c.toNat, List.mem_range.mpr h, Char.ofNat_toNat c⟩

theorem toLower_of_not_upper (c : Char) (h : ¬ c.isUpper = true) : c.toLower = c := by
  rw [isUpper_iff] at h
  unfold Char.toLower
  simp only [ge_iff_le]
  rw [if_neg h]

set_option maxRecDepth 100000 in
theorem canonStep_ascii : ∀ c ∈ asciiChars, nameChar c = true →
    validHeaderFieldByte c = true ∧ canonStep true c = c.toLower.toUpper ∧
      canonStep false c = c.toLower := by
  decide

theorem nameChar_ascii (c : Char) (h : nameChar c = true) : c.toNat < 128 := by
  by_cases hu : c.isUpper = true
  · have := (isUpper_iff c).mp hu
    omega
  · unfold nameChar at h
    rw [toLower_of_not_upper c hu] at h
    simp only [Bool.or_eq_true, beq_iff_eq] at h
    rcases h with h | h
    · have := (isLower_iff c).mp h
      omega
    · rw [h]; decide

theorem canonStep_of_nameChar (c : Char) (h : nameChar c = true) :
    validHeaderFieldByte c = true ∧ canonStep true c = c.toLower.toUpper ∧
      canonStep false c = c.toLower :=
  canonStep_ascii c (mem_asciiChars c (nameChar_ascii c h)) h

theorem canonStep_congr (u : Bool) (c d : Char) (h : c.toLower = d.toLower) (hd : nameChar d = true) :
    canonStep u c = canonStep u d := by
  have hc : nameChar c = true := by unfold nameChar at *; rw [h]; exact hd
  have h1 := canonStep_of_nameChar c hc
  have h2 := canonStep_of_nameChar d hd
  cases u
  · rw [h1.2.2, h2.2.2, h]
  · rw [h1.2.1, h2.2.1, h]

theorem canonLoop_congr (k : List Char) : ∀ (n : List Char) (u : Bool),
    k.map Char.toLower = n.map Char.toLower → (∀ d ∈ n, nameChar d = true) →
    k.all validHeaderFieldByte = true ∧ canonLoop u k = canonLoop u n := by
  induction k with
  | nil =>
    intro n u h _
    cases n with
    | nil => exact ⟨rfl, rfl⟩
    | cons d ds => simp at h
  | cons c cs ih =>
    intro n u h hn
    cases n with
    | nil => simp at h
    | cons d ds =>
      simp only [List.map_cons, List.cons.injEq] at h
      have hd : nameChar d = true := hn d (List.mem_cons_self _ _)
      have hc : nameChar c = true := by unfold nameChar at *; rw [h.1]; exact hd
      have hstep := canonStep_congr u c d h.1 hd
      obtain ⟨hv, hl⟩ := ih ds (canonStep u d == '-') h.2
        (fun x hx => hn x (List.mem_cons_of_mem _ hx))
      refine ⟨?_, ?_⟩
      · simp only [List.all_cons, Bool.and_eq_true]
        exact ⟨(canonStep_of_nameChar c hc).1, hv⟩
      · simp only [canonLoop, hstep, hl]

theorem hopNames_nameChars : ∀ n ∈ hopNames, ∀ d ∈ n.data, nameChar d = true := by
  decide

theorem hopNames_canonical : ∀ n ∈ hopNames, CanonicalMIMEHeaderKey n ∈ hopHeaders := by
  decide

theorem hopHeaders_canonical : ∀ n ∈ hopHeaders, CanonicalMIMEHeaderKey n = n := by
  decide

theorem hopHeaders_isHopName : ∀ n ∈ hopHeaders, isHopName n = true := by
  decide

theorem canonical_of_eqIgnoreCase (k n : String) (hn : n ∈ hopNames)
    (h : eqIgnoreCase k n = true) : CanonicalMIMEHeaderKey k ∈ hopHeaders := by
  have hmap : k.data.map Char.toLower = n.data.map Char.toLower := by
    simpa [eqIgnoreCase] using h
  have hk := canonLoop_congr k.data n.data true hmap (hopNames_nameChars n hn)
  have hnn := canonLoop_congr n.data n.data true rfl (hopNames_nameChars n hn)
  have e : CanonicalMIMEHeaderKey k = CanonicalMIMEHeaderKey n := by
    unfold CanonicalMIMEHeaderKey
    rw [if_pos hk.1, if_pos hnn.1, hk.2]
  rw [e]
  exact hopNames_canonical n hn

theorem mem_hopHeaders_of_isHopName (k : String) (hc : CanonicalMIMEHeaderKey k = k)
    (h : isHopName k = true) : k ∈ hopHeaders := by
  unfold isHopName at h
  rw [List.any_eq_true] at h
  obtain ⟨n, hn, hkn⟩ := h
  rw [← hc]
  exact canonical_of_eqIgnoreCase k n hn hkn

/-! ## Canonical keys are what `Header.Add` stores -/

theorem isDigit_iff (c : Char) : c.isDigit = true ↔ 48 ≤ c.toNat ∧ c.toNat ≤ 57 := by
  simp only [Char.isDigit, Bool.and_eq_true, decide_eq_true_eq, ge_iff_le, UInt32.le_def,
    BitVec.le_def, Char.toNat, UInt32.toNat]
  rfl

theorem valid_ascii (c : Char) (h : validHeaderFieldByte c = true) : c.toNat < 128 := by
  unfold validHeaderFieldByte at h
  simp only [Bool.or_eq_true, Char.isAlphanum, Char.isAlpha] at h
  rcases h with ((h | h) | h) | h
  · have := (isUpper_iff c).mp h; omega
  · have := (isLower_iff c).mp h; omega
  · have := (isDigit_iff c).mp h; omega
  · have hm : c ∈ "!#$%&'*+-.^_`|~".data := by simpa using h
    have hall : ∀ d ∈ "!#$%&'*+-.^_`|~".data, d.toNat < 128 := by decide
    exact hall c hm

set_option maxRecDepth 100000 in
theorem canonStep_valid_ascii : ∀ c ∈ asciiChars, validHeaderFieldByte c = true →
    ∀ u : Bool, validHeaderFieldByte (canonStep u c) = true ∧
      canonStep u (canonStep u c) = canonStep u c := by
  decide

theorem canonLoop_idem (l : List Char) : ∀ u : Bool, l.all validHeaderFieldByte = true →
    (canonLoop u l).all validHeaderFieldByte = true ∧
      canonLoop u (canonLoop u l) = canonLoop u l := by
  induction l with
  | nil => intro u _; exact ⟨rfl, rfl⟩
  | cons c cs ih =>
    intro u h
    simp only [List.all_cons, Bool.and_eq_true] at h
    have hc := canonStep_valid_ascii c (mem_asciiChars c (valid_ascii c h.1)) h.1 u
    have hrest := ih (canonStep u c == '-') h.2
    refine ⟨?_, ?_⟩
    · simp only [canonLoop, List.all_cons, Bool.and_eq_true]
      exact ⟨hc.1, hrest.1⟩
    · simp only [canonLoop, hc.2, hrest.2]

theorem CanonicalMIMEHeaderKey_idem (k : String) :
    CanonicalMIMEHeaderKey (CanonicalMIMEHeaderKey k) = CanonicalMIMEHeaderKey k := by
  by_cases h : k.data.all validHeaderFieldByte = true
  · have hi := canonLoop_idem k.data true h
    have e : CanonicalMIMEHeaderKey k = String.mk (canonLoop true k.data) := by
      unfold CanonicalMIMEHeaderKey; rw [if_pos h]
    rw [e]
    unfold CanonicalMIMEHeaderKey
    rw [if_pos hi.1, hi.2]
  · have e : CanonicalMIMEHeaderKey k = k := by
      unfold CanonicalMIMEHeaderKey; rw [if_neg h]
    rw [e, e]

theorem Add_keys (h : Header) (key value : String) :
    ∀ k ∈ (Header.Add h key value).keys, k ∈ h.keys ∨ k = CanonicalMIMEHeaderKey key := by
  intro k hk
  unfold Header.Add at hk
  simp only [Header.keys] at hk ⊢
  split at hk
  · rw [List.mem_map] at hk
    obtain ⟨e, he, hek⟩ := hk
    rw [List.mem_map] at he
    obtain ⟨e0, he0, hee⟩ := he
    left
    rw [List.mem_map]
    refine ⟨e0, he0, ?_⟩
    rw [← hek, ← hee]
    split <;> rfl
  · rw [List.map_append, List.mem_append] at hk
    rcases hk with hk | hk
    · exact Or.inl hk
    · right; simpa using hk

theorem Add_Canonical (h : Header) (key value : String) (hc : h.Canonical) :
    (Header.Add h key value).Canonical := by
  intro k hk
  rcases Add_keys h key value k hk with h1 | h1
  · exact hc k h1
  · rw [h1]; exact CanonicalMIMEHeaderKey_idem key

theorem foldl_Add_Canonical (kvs : List (String × String)) : ∀ h : Header, h.Canonical →
    Header.Canonical (kvs.foldl (fun h kv => Header.Add h kv.1 kv.2) h) := by
  induction kvs with
  | nil => intro h hc; exact hc
  | cons kv kvs ih =>
    intro h hc
    exact ih _ (Add_Canonical h kv.1 kv.2 hc)

theorem ofAdds_Canonical (kvs : List (String × String)) : (Header.ofAdds kvs).Canonical :=
  foldl_Add_Canonical kvs [] (fun k hk => by simp [Header.keys] at hk)

/-! ## `delHopHeaders` -/

theorem foldl_Del (names : List String) : ∀ h : Header,
    names.foldl (fun hd n => Header.Del hd n) h
      = h.filter (fun e => !(names.map CanonicalMIMEHeaderKey).contains e.1) := by
  induction names with
  | nil => intro h; simp
  | cons n ns ih =>
    intro h
    rw [List.foldl_cons, ih]
    simp only [Header.Del, List.filter_filter, List.map_cons, List.contains_cons, Bool.not_or]
    apply List.filter_congr
    intro e _
    exact Bool.and_comm _ _

theorem delHopHeaders_eq_filter (h : Header) :
    delHopHeaders h = h.filter (fun e => !hopHeaders.contains e.1) := by
  have e : hopHeaders.map CanonicalMIMEHeaderKey = hopHeaders := by decide
  unfold delHopHeaders
  rw [foldl_Del, e]

theorem mem_delHopHeaders (h : Header) (e : String × List String) :
    e ∈ delHopHeaders h ↔ e ∈ h ∧ e.1 ∉ hopHeaders := by
  rw [delHopHeaders_eq_filter, List.mem_filter]
  simp

theorem find_filter (h : Header) (k : String) (p : String × List String → Bool)
    (hp : ∀ e, e.1 = k → p e = true) :
    (h.filter p).find? (fun e => e.1 == k) = h.find? (fun e => e.1 == k) := by
  induction h with
  | nil => rfl
  | cons x xs ih =>
    by_cases hx : x.1 = k
    · have hpx := hp x hx
      simp [List.filter_cons, hpx, hx]
    · by_cases hpx : p x = true
      · simp [List.filter_cons, hpx, hx, ih]
      · simp [List.filter_cons, hpx, hx, ih]

theorem not_mem_hopHeaders (k : String) (h : isHopName k = false) : k ∉ hopHeaders := by
  intro hm
  have := hopHeaders_isHopName k hm
  rw [h] at this
  exact absurd this (by decide)

/-- C5, as stated, fails: a collection that holds the key "connection" in lower
case still holds it after `delHopHeaders`. -/
theorem lower_case_key_survives :
    ∃ k ∈ (delHopHeaders lowerCaseHeader).keys, ∃ n ∈ hopNames, eqIgnoreCase k n = true := by
  decide

/-- C5, amended: after `delHopHeaders` no key of the collection is one of the 9
canonical names of `hopHeaders`; when the keys of the collection are in
canonical form, no key equals, ignoring case, any of the 9 hop-by-hop names;
and that is so for every collection filled through `Header.Add`, whatever the
letter case of the names added. -/
theorem hop_names_removed (h : Header) :
    (∀ k ∈ (delHopHeaders h).keys, k ∉ hopHeaders) ∧
    (h.Canonical → ∀ k ∈ (delHopHeaders h).keys, ∀ n ∈ hopNames, eqIgnoreCase k n = false) ∧
    (∀ kvs, h = Header.ofAdds kvs →
      ∀ k ∈ (delHopHeaders h).keys, ∀ n ∈ hopNames, eqIgnoreCase k n = false) := by
  have key : ∀ k ∈ (delHopHeaders h).keys, k ∈ h.keys ∧ k ∉ hopHeaders := by
    intro k hk
    simp only [Header.keys, List.mem_map] at hk
    obtain ⟨e, he, rfl⟩ := hk
    have := (mem_delHopHeaders h e).mp he
    exact ⟨List.mem_map.mpr ⟨e, this.1, rfl⟩, this.2⟩
  have main : h.Canonical →
      ∀ k ∈ (delHopHeaders h).keys, ∀ n ∈ hopNames, eqIgnoreCase k n = false := by
    intro hc k hk n hn
    by_contra hne
    have hkn : eqIgnoreCase k n = true := by simpa using hne
    have hmem := canonical_of_eqIgnoreCase k n hn hkn
    rw [hc k (key k hk).1] at hmem
    exact (key k hk).2 hmem
  refine ⟨fun k hk => (key k hk).2, main, ?_⟩
  intro kvs hkvs
  exact main (by rw [hkvs]; exact ofAdds_Canonical kvs)

theorem hop_names_removed_witness :
    (∀ k ∈ (delHopHeaders wireHeader).keys, ∀ n ∈ hopNames, eqIgnoreCase k n = false) ∧
    (∀ k ∈ (delHopHeaders (Header.ofAdds
        [("CONNECTION", "close"), ("accept", "*/*"), ("tE", "trailers")])).keys,
      ∀ n ∈ hopNames, eqIgnoreCase k n = false) :=
  ⟨(hop_names_removed wireHeader).2.1 (by unfold Header.Canonical; decide),
    (hop_names_removed (Header.ofAdds
      [("CONNECTION", "close"), ("accept", "*/*"), ("tE", "trailers")])).2.2 _ rfl⟩

/-- C6: `delHopHeaders` leaves every key that is not, ignoring case, one of the
9 hop-by-hop names present with the same values in the same order, and leaves
a collection that holds no hop-by-hop name unchanged. -/
theorem other_headers_kept (h : Header) :
    (∀ k, isHopName k = false →
      Header.lookup (delHopHeaders h) k = Header.lookup h k ∧
        (k ∈ h.keys → k ∈ (delHopHeaders h).keys) ∧
        (delHopHeaders h).filter (fun e => e.1 == k) = h.filter (fun e => e.1 == k)) ∧
    ((∀ k ∈ h.keys, isHopName k = false) → delHopHeaders h = h) := by
  constructor
  · intro k hk
    have hnot := not_mem_hopHeaders k hk
    refine ⟨?_, ?_, ?_⟩
    · unfold Header.lookup
      rw [delHopHeaders_eq_filter, find_filter]
      intro e he
      simp [he, hnot]
    · intro hmem
      simp only [Header.keys, List.mem_map] at hmem ⊢
      obtain ⟨e, he, rfl⟩ := hmem
      exact ⟨e, (mem_delHopHeaders h e).mpr ⟨he, hnot⟩, rfl⟩
    · rw [delHopHeaders_eq_filter, List.filter_filter]
      apply List.filter_congr
      intro e _
      by_cases hek : e.1 = k
      · simp [hek, hnot]
      · simp [hek]
  · intro hall
    rw [delHopHeaders_eq_filter, List.filter_eq_self]
    intro e he
    have := not_mem_hopHeaders e.1 (hall e.1 (List.mem_map.mpr ⟨e, he, rfl⟩))
    simp [this]

theorem other_headers_kept_witness :
    Header.lookup (delHopHeaders wireHeader) "Accept" = some ["text/html", "*/*"] ∧
      delHopHeaders plainHeader = plainHeader :=
  ⟨((other_headers_kept wireHeader).1 "Accept" (by decide)).1,
    (other_headers_kept plainHeader).2 (by decide)⟩

/-- C7: `delHopHeaders` is idempotent. -/
theorem delHopHeaders_idempotent (h : Header) :
    delHopHeaders (delHopHeaders h) = delHopHeaders h := by
  rw [delHopHeaders_eq_filter (delHopHeaders h), List.filter_eq_self]
  intro e he
  have := ((mem_delHopHeaders h e).mp he).2
  simp [this]


/-! ## `copyHeader` -/

theorem any_key_false (dst : Header) (k : String) (h : k ∉ dst.keys) :
    dst.any (fun e => e.1 == k) = false := by
  rw [Bool.eq_false_iff]
  intro hany
  rw [List.any_eq_true] at hany
  obtain ⟨e, he, hk⟩ := hany
  exact h (List.mem_map.mpr ⟨e, he, by simpa using hk⟩)

theorem map_other_keys (dst : Header) (k : String) (f : String × List String → String × List String)
    (h : k ∉ dst.keys) :
    dst.map (fun e => if e.1 == k then f e else e) = dst := by
  induction dst with
  | nil => rfl
  | cons x xs ih =>
    have hx : ¬ x.1 = k := fun e => h (by simp [Header.keys, e])
    have hxs : k ∉ Header.keys xs := fun e => h (by
      simp only [Header.keys, List.map_cons, List.mem_cons]
      exact Or.inr e)
    rw [List.map_cons, ih hxs]
    simp [hx]

theorem Add_new (dst : Header) (k v : String) (hc : CanonicalMIMEHeaderKey k = k)
    (h : k ∉ dst.keys) : Header.Add dst k v = dst ++ [(k, [v])] := by
  unfold Header.Add
  simp only [hc, any_key_false dst k h]
  rfl

theorem Add_last (dst : Header) (k v : String) (acc : List String)
    (hc : CanonicalMIMEHeaderKey k = k) (h : k ∉ dst.keys) :
    Header.Add (dst ++ [(k, acc)]) k v = dst ++ [(k, acc ++ [v])] := by
  unfold Header.Add
  simp only [hc]
  have hany : (dst ++ [(k, acc)]).any (fun e => e.1 == k) = true := by simp
  rw [if_pos hany, List.map_append, map_other_keys dst k _ h]
  simp

theorem Add_values (k : String) (dst : Header) (hc : CanonicalMIMEHeaderKey k = k)
    (h : k ∉ dst.keys) (vs : List String) : ∀ acc : List String,
    vs.foldl (fun d v => Header.Add d k v) (dst ++ [(k, acc)]) = dst ++ [(k, acc ++ vs)] := by
  induction vs with
  | nil => intro acc; simp
  | cons v vs ih =>
    intro acc
    rw [List.foldl_cons, Add_last dst k v acc hc h, ih]
    simp

theorem Add_entry (e : String × List String) (dst : Header)
    (hc : CanonicalMIMEHeaderKey e.1 = e.1) (hv : e.2 ≠ []) (h : e.1 ∉ dst.keys) :
    e.2.foldl (fun d v => Header.Add d e.1 v) dst = dst ++ [e] := by
  obtain ⟨k, vs⟩ := e
  cases vs with
  | nil => exact absurd rfl hv
  | cons v vs =>
    simp only [List.foldl_cons]
    rw [Add_new dst k v hc h, Add_values k dst hc h vs [v]]
    rfl

theorem copyHeader_append (src : Header) : ∀ dst : Header,
    (∀ e ∈ src, CanonicalMIMEHeaderKey e.1 = e.1 ∧ e.2 ≠ []) →
    (dst.keys ++ src.keys).Nodup → copyHeader dst src = dst ++ src := by
  induction src with
  | nil => intro dst _ _; simp [copyHeader]
  | cons e es ih =>
    intro dst hsrc hnd
    have he := hsrc e (List.mem_cons_self _ _)
    have hnot : e.1 ∉ dst.keys := by
      intro hm
      have := List.nodup_append.mp hnd
      exact this.2.2 hm (by simp [Header.keys])
    have hstep : copyHeader dst (e :: es) = copyHeader (dst ++ [e]) es := by
      unfold copyHeader
      rw [List.foldl_cons, Add_entry e dst he.1 he.2 hnot]
    rw [hstep, ih (dst ++ [e]) (fun x hx => hsrc x (List.mem_cons_of_mem _ hx))]
    · simp
    · simpa [Header.keys] using hnd

theorem withoutHopNames_eq (h : Header) (hc : h.Canonical) :
    withoutHopNames h = delHopHeaders h := by
  rw [delHopHeaders_eq_filter]
  unfold withoutHopNames
  apply List.filter_congr
  intro e he
  have hce : CanonicalMIMEHeaderKey e.1 = e.1 := hc e.1 (List.mem_map.mpr ⟨e, he, rfl⟩)
  by_cases hh : isHopName e.1 = true
  · have := mem_hopHeaders_of_isHopName e.1 hce hh
    simp [hh, this]
  · have hf : isHopName e.1 = false := by simpa using hh
    have := not_mem_hopHeaders e.1 hf
    simp [hf, this]

/-! ## Relaying the response -/

theorem Get_delHopHeaders (h : Header) :
    (delHopHeaders h).Get "Content-Length" = h.Get "Content-Length" := by
  have hk : CanonicalMIMEHeaderKey "Content-Length" = "Content-Length" := by decide
  have hn : "Content-Length" ∉ hopHeaders := by decide
  unfold Header.Get Header.lookup
  rw [hk, delHopHeaders_eq_filter, find_filter]
  intro e he
  simp [he, hn]

theorem Write_accepted (w : ResponseWriter) (data : List UInt8)
    (hw : w.wroteHeader = true) (hne : data ≠ [])
    (hb : bodyAllowedForStatus w.status = true)
    (hcl : w.contentLength = -1 ∨ w.written + data.length ≤ w.contentLength)
    (hm : w.reqMethod ≠ "HEAD") :
    w.Write data = ({ w with written := w.written + data.length, body := w.body ++ data }, none) := by
  have hempty : data.isEmpty = false := by
    cases data with
    | nil => exact absurd rfl hne
    | cons x xs => rfl
  have hlen : ¬ (w.contentLength ≠ -1 ∧ w.written + data.length > w.contentLength) := by
    rcases hcl with h | h
    · simp [h]
    · intro hc; omega
  unfold ResponseWriter.Write
  simp only [hw, if_true, hempty, hb, Bool.not_true, Bool.false_eq_true, if_false, hlen, hm]

/-- C9, as stated, fails: a backend response with the status line "099", which
the client returns with status code 99, makes `WriteHeader` panic; the handler
is unwound with no status written and none of the two body bytes relayed. -/
theorem odd_status_not_relayed :
    (ServeHTTP oddStatusClient freshWriter
        (mkRequest "GET" "http" "web.shop.svc.cluster.local:8080" "/" "")).dispatched
        = some (outbound (mkRequest "GET" "http" "web.shop.svc.cluster.local:8080" "/" "")) ∧
      (oddStatusClient.Do
        (outbound (mkRequest "GET" "http" "web.shop.svc.cluster.local:8080" "/" ""))).result
        = .ok oddStatusResponse ∧
      freshWriter.header = [] ∧
      (ServeHTTP oddStatusClient freshWriter
        (mkRequest "GET" "http" "web.shop.svc.cluster.local:8080" "/" "")).panicked = true ∧
      (ServeHTTP oddStatusClient freshWriter
        (mkRequest "GET" "http" "web.shop.svc.cluster.local:8080" "/" "")).wr.wroteHeader
        = false ∧
      (ServeHTTP oddStatusClient freshWriter
        (mkRequest "GET" "http" "web.shop.svc.cluster.local:8080" "/" "")).wr.statusCodes = [] ∧
      (ServeHTTP oddStatusClient freshWriter
        (mkRequest "GET" "http" "web.shop.svc.cluster.local:8080" "/" "")).wr.body = [] ∧
      oddStatusResponse.Body = [111, 107] :=
  ⟨by decide, rfl, rfl, by decide, by decide, by decide, by decide, rfl⟩

/-- A response key stored in lower case is not taken for a hop-by-hop name:
"connection" reaches the caller as "Connection: close". -/
theorem lower_case_response_key_relayed :
    (ServeHTTP lowerCaseClient freshWriter
        (mkRequest "GET" "http" "web.shop.svc.cluster.local:8080" "/" "")).wr.sentHeader
        = [("Connection", ["close"])] ∧
      withoutHopNames lowerCaseResponse.Header = [] :=
  ⟨by decide, by decide⟩

/-- Further responses that are not relayed as they are: status 102 reaches the
caller as an interim response followed by status 200; a body with status 204,
or one byte more than the declared Content-Length, is refused and the handler
panics; the body of the answer to a HEAD request is not sent; a key without
values is not copied. -/
theorem further_relay_failures :
    (ServeHTTP
        (answering { Status := "102 Processing", StatusCode := 102, Header := [], Body := [111] })
        (newResponseWriter "GET")
        (mkRequest "GET" "http" "web.shop.svc.cluster.local:8080" "/" "")).wr.status = 200 ∧
    (ServeHTTP
        (answering { Status := "204 No Content", StatusCode := 204, Header := [], Body := [111] })
        (newResponseWriter "GET")
        (mkRequest "GET" "http" "web.shop.svc.cluster.local:8080" "/" "")).panicked = true ∧
    (ServeHTTP
        (answering { Status := "200 OK", StatusCode := 200,
                     Header := [("Content-Length", ["1"])], Body := [111, 107] })
        (newResponseWriter "GET")
        (mkRequest "GET" "http" "web.shop.svc.cluster.local:8080" "/" "")).panicked = true ∧
    (ServeHTTP
        (answering { Status := "200 OK", StatusCode := 200, Header := [], Body := [111, 107] })
        (newResponseWriter "HEAD")
        (mkRequest "HEAD" "http" "web.shop.svc.cluster.local:8080" "/" "")).wr.body = [] ∧
    (ServeHTTP
        (answering { Status := "200 OK", StatusCode := 200,
                     Header := [("X-Empty", [])], Body := [] })
        (newResponseWriter "GET")
        (mkRequest "GET" "http" "web.shop.svc.cluster.local:8080" "/" "")).wr.sentHeader = [] := by
  decide

/-- C9, amended: when a request is dispatched and the client answers with a
response r whose status code is 101 or lies in 200..999, whose header keys are
in canonical form and pairwise distinct, each with at least one value, and
whose body is empty or else allowed by the status, not longer than a declared
Content-Length and not the answer to a HEAD request, then a response writer
fresh from the server is given, in this order, the headers of r without the
hop-by-hop names, the status code of r, and the body of r; the handler neither
panics nor ends the process. -/
theorem response_relayed (client : Client) (m : String) (req out : Request) (r : Response)
    (hd : (ServeHTTP client (newResponseWriter m) req).dispatched = some out)
    (hr : (client.Do out).result = .ok r)
    (hcode : r.StatusCode = 101 ∨ (200 ≤ r.StatusCode ∧ r.StatusCode ≤ 999))
    (hcanon : r.Header.Canonical)
    (hnodup : r.Header.keys.Nodup)
    (hvals : ∀ e ∈ r.Header, e.2 ≠ [])
    (hbody : r.Body = [] ∨
      (bodyAllowedForStatus r.StatusCode = true ∧ m ≠ "HEAD" ∧
        ∀ n, ParseInt (r.Header.Get "Content-Length") = some n → 0 ≤ n →
          (r.Body.length : Int) ≤ n)) :
    (ServeHTTP client (newResponseWriter m) req).wr.wroteHeader = true ∧
      (ServeHTTP client (newResponseWriter m) req).wr.status = r.StatusCode ∧
      (ServeHTTP client (newResponseWriter m) req).wr.statusCodes = [r.StatusCode] ∧
      (ServeHTTP client (newResponseWriter m) req).wr.informational = [] ∧
      (ServeHTTP client (newResponseWriter m) req).wr.sentHeader = withoutHopNames r.Header ∧
      (ServeHTTP client (newResponseWriter m) req).wr.body = r.Body ∧
      (ServeHTTP client (newResponseWriter m) req).panicked = false ∧
      (ServeHTTP client (newResponseWriter m) req).fatal = false := by
  obtain ⟨rfl, hs, hok⟩ := dispatched_some client (newResponseWriter m) req out hd
  rw [ServeHTTP_relay client (newResponseWriter m) req r hs hok hr]
  have hsub : ∀ e ∈ delHopHeaders r.Header, e ∈ r.Header :=
    fun e he => ((mem_delHopHeaders r.Header e).mp he).1
  have hcopy : copyHeader (newResponseWriter m).header (delHopHeaders r.Header)
      = withoutHopNames r.Header := by
    show copyHeader [] (delHopHeaders r.Header) = withoutHopNames r.Header
    rw [copyHeader_append, withoutHopNames_eq r.Header hcanon]
    · simp
    · intro e he
      exact ⟨hcanon e.1 (List.mem_map.mpr ⟨e, hsub e he, rfl⟩), hvals e (hsub e he)⟩
    · simp only [Header.keys, List.map_nil, List.nil_append]
      rw [delHopHeaders_eq_filter]
      exact (List.filter_sublist _).map _ |>.nodup hnodup
  have hget : (withoutHopNames r.Header).Get "Content-Length" = r.Header.Get "Content-Length" := by
    rw [withoutHopNames_eq r.Header hcanon, Get_delHopHeaders]
  obtain ⟨w1, h1, hwrote, hstatus, hsent, hcodes, hb, hwritten, hmeth, hinfo, hcl⟩ :=
    WriteHeader_final
      { newResponseWriter m with
        header := copyHeader (newResponseWriter m).header (delHopHeaders r.Header) }
      r.StatusCode rfl hcode
  simp only [h1]
  have hsent2 : w1.sentHeader = withoutHopNames r.Header := by rw [hsent]; exact hcopy
  have hcodes2 : w1.statusCodes = [r.StatusCode] := by rw [hcodes]; rfl
  have hinfo2 : w1.informational = [] := by rw [hinfo]; rfl
  have hb2 : w1.body = [] := by rw [hb]; rfl
  have hwritten2 : w1.written = 0 := by rw [hwritten]; rfl
  have hmeth2 : w1.reqMethod = m := by rw [hmeth]; rfl
  rcases hbody with hempty | ⟨hallowed, hhead, hfit⟩
  · have hio : ioCopy w1 r.Body = (w1, none) := by
      unfold ioCopy
      rw [hempty]
      rfl
    rw [hio]
    exact ⟨hwrote, hstatus, hcodes2, hinfo2, hsent2, by rw [hb2, hempty], rfl, trivial⟩
  · by_cases hempty : r.Body = []
    · have hio : ioCopy w1 r.Body = (w1, none) := by
        unfold ioCopy
        rw [hempty]
        rfl
      rw [hio]
      exact ⟨hwrote, hstatus, hcodes2, hinfo2, hsent2, by rw [hb2, hempty], rfl, trivial⟩
    · have hfits : w1.contentLength = -1 ∨ w1.written + r.Body.length ≤ w1.contentLength := by
        rcases hcl with h | ⟨_, hparse, hpos⟩
        · left; rw [h]; rfl
        · right
          have hparse2 : ParseInt (r.Header.Get "Content-Length") = some w1.contentLength := by
            rw [← hget, ← hcopy]; exact hparse
          have := hfit w1.contentLength hparse2 hpos
          rw [hwritten2]
          omega
      have hio : ioCopy w1 r.Body
          = ({ w1 with written := w1.written + r.Body.length, body := w1.body ++ r.Body },
              none) := by
        have hne : r.Body.isEmpty = false := by
          cases hB : r.Body with
          | nil => exact absurd hB hempty
          | cons x xs => rfl
        unfold ioCopy
        rw [hne]
        exact Write_accepted w1 r.Body hwrote hempty (by rw [hstatus]; exact hallowed) hfits
          (by rw [hmeth2]; exact hhead)
      rw [hio]
      exact ⟨hwrote, hstatus, hcodes2, hinfo2, hsent2, by simp [hb2], rfl, trivial⟩

theorem response_relayed_witness :
    (ServeHTTP wireClient (newResponseWriter "GET")
        (mkRequest "GET" "http" "web.shop.svc.cluster.local:8080" "/cart" "x=1")).wr.wroteHeader = true ∧
      (ServeHTTP wireClient (newResponseWriter "GET")
        (mkRequest "GET" "http" "web.shop.svc.cluster.local:8080" "/cart" "x=1")).wr.status
        = wireResponse.StatusCode ∧
      (ServeHTTP wireClient (newResponseWriter "GET")
        (mkRequest "GET" "http" "web.shop.svc.cluster.local:8080" "/cart" "x=1")).wr.statusCodes
        = [wireResponse.StatusCode] ∧
      (ServeHTTP wireClient (newResponseWriter "GET")
        (mkRequest "GET" "http" "web.shop.svc.cluster.local:8080" "/cart" "x=1")).wr.informational = [] ∧
      (ServeHTTP wireClient (newResponseWriter "GET")
        (mkRequest "GET" "http" "web.shop.svc.cluster.local:8080" "/cart" "x=1")).wr.sentHeader
        = withoutHopNames wireResponse.Header ∧
      (ServeHTTP wireClient (newResponseWriter "GET")
        (mkRequest "GET" "http" "web.shop.svc.cluster.local:8080" "/cart" "x=1")).wr.body
        = wireResponse.Body ∧
      (ServeHTTP wireClient (newResponseWriter "GET")
        (mkRequest "GET" "http" "web.shop.svc.cluster.local:8080" "/cart" "x=1")).panicked = false ∧
      (ServeHTTP wireClient (newResponseWriter "GET")
        (mkRequest "GET" "http" "web.shop.svc.cluster.local:8080" "/cart" "x=1")).fatal = false :=
  response_relayed wireClient "GET"
    (mkRequest "GET" "http" "web.shop.svc.cluster.local:8080" "/cart" "x=1")
    (outbound (mkRequest "GET" "http" "web.shop.svc.cluster.local:8080" "/cart" "x=1")) wireResponse
    (by decide) rfl (Or.inr (by decide)) (by unfold Header.Canonical; decide) (by decide)
    (by decide) (Or.inr ⟨by decide, by decide, by decide⟩)


end KubeHttpProxy
